import Mathlib

/-!
# RayTracing renderer: a shallow embedding of `Renderer.cpp`

The embedding follows `src/RayTracing/Source/Renderer.cpp` function by function.

* `float` is modelled by a carrier type `F`. The `glm` helpers and `TraceRay` use only its
  operations (`+`, `-`, `*`, `/`, negation, `max`, `min`, the literals), its comparison `<`
  and an explicit square-root function `sqrt : F → F`, so they read the same over IEEE
  binary32 as over an ordered field. The theorems about which sphere the loop of `TraceRay`
  selects hold for every such `F`, under the laws of comparison and sign they state; the
  colour packer and `Render` take an ordered field with a floor function, and the other
  theorems instantiate `F` with `ℝ` and `sqrt` with `Real.sqrt`, where arithmetic is exact
  (no rounding, no overflow to infinity, no NaN) and division follows the field convention
  `x / 0 = 0`.
* `uint8_t`, `uint32_t` and `int` are natural numbers / integers with explicit reduction
  modulo `2 ^ 8` and `2 ^ 32` where the source arithmetic can wrap.
* `glm` vectors are plain structures; `glm::dot`, `glm::normalize`, `glm::clamp`,
  `glm::max` and `glm::length` are written out from their definitions.
* Out-of-range container reads (undefined behaviour in the source) take an explicit default
  value, so every function is total; `TraceRayChecked` and `Renderer.RenderChecked` are the
  same functions with every access checked, returning `none` on an access out of range.
* The types declared in headers outside `src/` (`Sphere`, `Material`, `Scene`, `Ray`,
  `Camera`, `Base::Image`) are modelled from the data model of the spec.
-/

namespace RayTracing

/-! ## glm vectors -/

/-- The type `glm::vec3`. -/
structure Vec3 (F : Type) where
  x : F
  y : F
  z : F

/-- The type `glm::vec4`, with its colour accessors `r g b a`. -/
structure Vec4 (F : Type) where
  r : F
  g : F
  b : F
  a : F

section Glm

variable {F : Type} [Add F] [Sub F] [Mul F] [Div F] [Neg F] [OfNat F 0] [OfNat F 1] [OfNat F 2]
  [Max F] [Min F] [Pow F ℕ]

/-- Componentwise `u + v`. -/
def Vec3.add (u v : Vec3 F) : Vec3 F := ⟨u.x + v.x, u.y + v.y, u.z + v.z⟩

/-- Componentwise `u - v`. -/
def Vec3.sub (u v : Vec3 F) : Vec3 F := ⟨u.x - v.x, u.y - v.y, u.z - v.z⟩

/-- Unary minus `-v`. -/
def Vec3.neg (v : Vec3 F) : Vec3 F := ⟨-v.x, -v.y, -v.z⟩

/-- Vector times scalar, `v * s`. -/
def Vec3.scale (v : Vec3 F) (s : F) : Vec3 F := ⟨v.x * s, v.y * s, v.z * s⟩

/-- The function `glm::dot` on `vec3`. -/
def dot (u v : Vec3 F) : F := u.x * v.x + u.y * v.y + u.z * v.z

/-- The function `glm::length`: `sqrt(dot(v, v))`. -/
def length (sqrt : F → F) (v : Vec3 F) : F := sqrt (dot v v)

/-- The function `glm::normalize`: `v * inversesqrt(dot(v, v))`. -/
def normalize (sqrt : F → F) (v : Vec3 F) : Vec3 F := v.scale (1 / sqrt (dot v v))

/-- The scalar `glm::clamp(x, minVal, maxVal)`, which is `min(max(x, minVal), maxVal)`. -/
def clampScalar (x minVal maxVal : F) : F := min (max x minVal) maxVal

/-- The call `glm::clamp(color, glm::vec4(0.0f), glm::vec4(1.0f))` of `Render`:
each channel is clamped on its own. -/
def clamp01 (color : Vec4 F) : Vec4 F :=
  ⟨clampScalar color.r 0 1, clampScalar color.g 0 1, clampScalar color.b 0 1,
    clampScalar color.a 0 1⟩

/-- The constant `std::numeric_limits<float>::max()`, `(2 - 2^(-23)) * 2^127`. -/
def FLT_MAX : F := (2 ^ 24 - 1) * 2 ^ 104

end Glm

/-! ## `Utils::ConvertToRGBA` -/

section Packer

variable {F : Type} [LinearOrderedField F] [FloorRing F]

/-- The conversion `(uint8_t)(v)` of a `float`: the fractional part is discarded (truncation
toward zero). A truncated value outside `0 .. 255` is undefined behaviour in C++; it is
reduced modulo `2 ^ 8` here. -/
def toUInt8 (v : F) : Nat := ((if 0 ≤ v then ⌊v⌋ else ⌈v⌉) % 256).toNat

/-- The expression `(a << 24) | (b << 16) | (g << 8) | r`, stored in a `uint32_t`. -/
def packBytes (r g b a : Nat) : Nat :=
  ((a <<< 24) ||| (b <<< 16) ||| (g <<< 8) ||| r) % 2 ^ 32

/-- The function `Utils::ConvertToRGBA` (Renderer.cpp, lines 7-16). -/
def ConvertToRGBA (color : Vec4 F) : Nat :=
  let r := toUInt8 (color.r * 255)
  let g := toUInt8 (color.g * 255)
  let b := toUInt8 (color.b * 255)
  let a := toUInt8 (color.a * 255)
  packBytes r g b a

end Packer

/-! ## Scene, ray and camera -/

/-- Modelled from the spec: the type `Sphere` (declared in a header outside `src/`). The
spec's data model gives it a `Position`, a `Radius` and a `MaterialIndex`, an index into
the material list of the scene. -/
structure Sphere (F : Type) where
  Position : Vec3 F
  Radius : F
  MaterialIndex : Nat

/-- Modelled from the spec: the type `Material` (declared in a header outside `src/`), of
which only the three-channel `Albedo` is read. -/
structure Material (F : Type) where
  Albedo : Vec3 F

/-- Modelled from the spec: the type `Scene` (declared in a header outside `src/`): an
ordered sequence of spheres and an ordered sequence of materials. -/
structure Scene (F : Type) where
  Spheres : List (Sphere F)
  Materials : List (Material F)

/-- Modelled from the spec: the type `Ray` (declared in a header outside `src/`), built by
`Ray(origin, direction)` and read by `GetOrigin()` and `GetDirection()`. -/
structure Ray (F : Type) where
  Origin : Vec3 F
  Direction : Vec3 F

/-- Modelled from the spec: the type `Camera` (declared in a header outside `src/`), read by
`GetPosition()` and `GetRayDirections()`: a position and one ray direction per pixel. -/
structure Camera (F : Type) where
  Position : Vec3 F
  RayDirections : List (Vec3 F)

/-! ## `Renderer::TraceRay` -/

section Trace

variable {F : Type} [Add F] [Sub F] [Mul F] [Div F] [Neg F] [OfNat F 0] [OfNat F 1] [OfNat F 2]
  [OfNat F 4] [Max F] [Pow F ℕ] [LT F] [DecidableRel ((· < ·) : F → F → Prop)]

/-- The two locals `closestSphere` and `hitDistance` of `TraceRay`. -/
structure HitState (F : Type) where
  closestSphere : Int
  hitDistance : F

/-- The local `discriminant = b * b - 4 * a * c` of the loop body (lines 75-84). -/
def discriminant (rayOrigin rayDirection : Vec3 F) (sphere : Sphere F) : F :=
  let origin := rayOrigin.sub sphere.Position
  let a := dot rayDirection rayDirection
  let b := 2 * dot origin rayDirection
  let c := dot origin origin - sphere.Radius * sphere.Radius
  b * b - 4 * a * c

/-- The local `closestT = (-b - sqrt(discriminant)) / (2 * a)` of the loop body (line 92). -/
def closestT (sqrt : F → F) (rayOrigin rayDirection : Vec3 F) (sphere : Sphere F) : F :=
  let origin := rayOrigin.sub sphere.Position
  let a := dot rayDirection rayDirection
  let b := 2 * dot origin rayDirection
  (-b - sqrt (discriminant rayOrigin rayDirection sphere)) / (2 * a)

/-- One iteration of the loop over `Spheres` (lines 74-97) for the sphere at index `i`. The
cast `(int)i` is taken as exact: a scene has fewer than `2 ^ 31` spheres. -/
def sphereStep (sqrt : F → F) (rayOrigin rayDirection : Vec3 F) (i : Nat)
    (sphere : Sphere F) (st : HitState F) : HitState F :=
  if discriminant rayOrigin rayDirection sphere < 0 then st
  else
    let t := closestT sqrt rayOrigin rayDirection sphere
    if t > 0 ∧ t < st.hitDistance then ⟨(i : Int), t⟩ else st

/-- The loop `for (size_t i = 0; i < Spheres.size(); i++)` (lines 72-98), run over the
spheres from index `i` on. -/
def traceLoop (sqrt : F → F) (rayOrigin rayDirection : Vec3 F) :
    List (Sphere F) → Nat → HitState F → HitState F
  | [], _, st => st
  | sphere :: rest, i, st =>
    traceLoop sqrt rayOrigin rayDirection rest (i + 1)
      (sphereStep sqrt rayOrigin rayDirection i sphere st)

/-- The state of `closestSphere` and `hitDistance` after the whole loop (lines 66-98). -/
def closestHit (sqrt : F → F) (scene : Scene F) (ray : Ray F) : HitState F :=
  traceLoop sqrt ray.Origin ray.Direction scene.Spheres 0 ⟨-1, FLT_MAX⟩

/-- The shading of the selected sphere (lines 103-115). -/
def shadeHit (sqrt : F → F) (scene : Scene F) (rayOrigin rayDirection : Vec3 F)
    (sphere : Sphere F) (hitDistance : F) : Vec4 F :=
  let origin := rayOrigin.sub sphere.Position
  let hitPoint := origin.add (rayDirection.scale hitDistance)
  let normal := normalize sqrt hitPoint
  let lightDir := normalize sqrt (⟨-1, -1, -1⟩ : Vec3 F)
  let lightIntensity := max (dot normal lightDir.neg) 0
  let sphereColor := (scene.Materials.getD sphere.MaterialIndex ⟨⟨0, 0, 0⟩⟩).Albedo
  let sphereColor := sphereColor.scale lightIntensity
  ⟨sphereColor.x, sphereColor.y, sphereColor.z, 1⟩

/-- The function `Renderer::TraceRay` (lines 57-116); `m_ActiveScene` is the argument
`scene`. -/
def TraceRay (sqrt : F → F) (scene : Scene F) (ray : Ray F) : Vec4 F :=
  let hit := closestHit sqrt scene ray
  if hit.closestSphere < 0 then ⟨0, 0, 0, 1⟩
  else
    let sphere := scene.Spheres.getD hit.closestSphere.toNat ⟨⟨0, 0, 0⟩, 0, 0⟩
    shadeHit sqrt scene ray.Origin ray.Direction sphere hit.hitDistance

end Trace

/-! ## The quadratic in the words of the spec

The three definitions below write out the formulas of spec §4.3 on their own, without
`discriminant` and `closestT`, so that theorems about the loop compare the embedding of
lines 75-93 with them. -/

section SpecFormulas

variable {F : Type} [Add F] [Sub F] [Mul F] [Div F] [Neg F] [OfNat F 0] [OfNat F 1] [OfNat F 2]
  [OfNat F 4] [Pow F ℕ] [LT F]

/-- The discriminant `b * b - 4 * a * c` of spec §4.3 with `a = dot(direction, direction)`,
`b = 2 * dot(origin, direction)`, `c = dot(origin, origin) - radius^2` (the square written
as the product `radius * radius`) and `origin = rayOrigin - spherePosition`. -/
def specDiscriminant (rayOrigin rayDirection : Vec3 F) (sphere : Sphere F) : F :=
  2 * dot (rayOrigin.sub sphere.Position) rayDirection
      * (2 * dot (rayOrigin.sub sphere.Position) rayDirection)
    - 4 * dot rayDirection rayDirection
      * (dot (rayOrigin.sub sphere.Position) (rayOrigin.sub sphere.Position)
        - sphere.Radius * sphere.Radius)

/-- The near root `t = (-b - sqrt(discriminant)) / (2 * a)` of spec §4.3. -/
def specNearRoot (sqrt : F → F) (rayOrigin rayDirection : Vec3 F) (sphere : Sphere F) : F :=
  (-(2 * dot (rayOrigin.sub sphere.Position) rayDirection)
      - sqrt (specDiscriminant rayOrigin rayDirection sphere))
    / (2 * dot rayDirection rayDirection)

/-- A candidate hit in the words of the spec: the discriminant is `>= 0` and the near root
`t` satisfies `0 < t < FLT_MAX`. -/
def specCandidate [LE F] (sqrt : F → F) (rayOrigin rayDirection : Vec3 F)
    (sphere : Sphere F) : Prop :=
  specDiscriminant rayOrigin rayDirection sphere ≥ 0
    ∧ 0 < specNearRoot sqrt rayOrigin rayDirection sphere
    ∧ specNearRoot sqrt rayOrigin rayDirection sphere < FLT_MAX

end SpecFormulas

/-! ## Frame buffer: `Renderer::OnResize` and `Renderer::Render` -/

/-- Modelled from the spec: the displayable image `Base::Image` (declared outside `src/`).
It exposes its current width and height, a resize operation and a set-pixel-data operation
that keeps its own copy of `Width * Height` packed pixels. -/
structure Image where
  Width : Nat
  Height : Nat
  Data : List Nat
deriving DecidableEq, Repr

/-- Modelled from the spec: `Image::GetWidth`. -/
def Image.GetWidth (img : Image) : Nat := img.Width

/-- Modelled from the spec: `Image::GetHeight`. -/
def Image.GetHeight (img : Image) : Nat := img.Height

/-- Modelled from the spec: `Image::Resize`, which informs the image of its new
dimensions. -/
def Image.Resize (img : Image) (width height : Nat) : Image :=
  { img with Width := width, Height := height }

/-- Modelled from the spec: `Image::SetData`, which copies `Width * Height` packed pixels
from the given buffer. -/
def Image.SetData (img : Image) (data : List Nat) : Image :=
  { img with Data := data.take (img.Width * img.Height) }

/-- The heap array behind the pointer `m_ImageData`. Its only allocation is
`new uint32_t[width * height]` with a `uint32_t` length (line 35), so it has fewer than
`2 ^ 32` slots; the null pointer of a fresh renderer is the empty array. -/
structure PixelBuffer where
  data : List Nat
  size_lt : data.length < 2 ^ 32
deriving DecidableEq, Repr

/-- The allocation `new uint32_t[width * height]`: the product is `uint32_t` arithmetic. A
fresh array has indeterminate contents in C++; the model fills it with zeros. -/
def PixelBuffer.alloc (width height : Nat) : PixelBuffer :=
  ⟨List.replicate ((width * height) % 2 ^ 32) 0,
    by rw [List.length_replicate]; exact Nat.mod_lt _ (Nat.two_pow_pos 32)⟩

/-- The store `m_ImageData[index] = value`; a store past the end of the array (undefined
behaviour in the source) changes nothing. -/
def PixelBuffer.write (buf : PixelBuffer) (index value : Nat) : PixelBuffer :=
  ⟨buf.data.set index value, by rw [List.length_set]; exact buf.size_lt⟩

/-- The members of `Renderer` that `OnResize` and `Render` read and write: the shared image
`m_FinalImage` (`none` is the null pointer), the heap array `m_ImageData` and a count of
the `new uint32_t[...]` executions (line 35). The borrowed pointers `m_ActiveScene` and
`m_ActiveCamera` are the explicit `scene` and `camera` arguments of `Render` and
`TraceRay`. -/
structure Renderer where
  m_FinalImage : Option Image
  m_ImageData : PixelBuffer
  allocations : Nat
deriving DecidableEq, Repr

/-- The state of a newly constructed `Renderer`: no image and no buffer. -/
def Renderer.init : Renderer := ⟨none, ⟨[], by decide⟩, 0⟩

/-- The last two statements of `OnResize` (lines 34-35): the old array is released and a
new one of `width * height` slots is allocated. -/
def Renderer.reallocate (self : Renderer) (width height : Nat) : Renderer :=
  { self with m_ImageData := PixelBuffer.alloc width height,
              allocations := self.allocations + 1 }

/-- The function `Renderer::OnResize` (lines 19-36); `width` and `height` are `uint32_t`
values. -/
def Renderer.OnResize (self : Renderer) (width height : Nat) : Renderer :=
  match self.m_FinalImage with
  | some img =>
    if img.GetWidth = width ∧ img.GetHeight = height then self
    else
      Renderer.reallocate { self with m_FinalImage := some (img.Resize width height) }
        width height
  | none =>
    Renderer.reallocate { self with m_FinalImage := some ⟨width, height, []⟩ } width height

section Render

variable {F : Type} [LinearOrderedField F] [FloorRing F]

/-- The value lines 47-50 compute for the pixel of index `index`: the ray from the camera
position along `GetRayDirections()[index]` is traced, the colour clamped and packed. -/
def pixelColor (sqrt : F → F) (scene : Scene F) (camera : Camera F) (index : Nat) : Nat :=
  let ray : Ray F := ⟨camera.Position, camera.RayDirections.getD index ⟨0, 0, 0⟩⟩
  let color := TraceRay sqrt scene ray
  let color := clamp01 color
  ConvertToRGBA color

/-- The body of the inner loop of `Render` (lines 47-50) for the pixel `(x, y)`; the index
`x + y * width` is `uint32_t` arithmetic. -/
def renderPixel (sqrt : F → F) (scene : Scene F) (camera : Camera F) (width : Nat)
    (y x : Nat) (buf : PixelBuffer) : PixelBuffer :=
  let index := (x + y * width) % 2 ^ 32
  buf.write index (pixelColor sqrt scene camera index)

/-- The inner loop `for (uint32_t x = 0; x < GetWidth(); x++)` (line 45), with `n` columns
still to do from column `x` on. -/
def renderRow (sqrt : F → F) (scene : Scene F) (camera : Camera F) (width : Nat) (y : Nat) :
    Nat → Nat → PixelBuffer → PixelBuffer
  | 0, _, buf => buf
  | n + 1, x, buf =>
    renderRow sqrt scene camera width y n (x + 1)
      (renderPixel sqrt scene camera width y x buf)

/-- The outer loop `for (uint32_t y = 0; y < GetHeight(); y++)` (line 43), with `n` rows
still to do from row `y` on. -/
def renderRows (sqrt : F → F) (scene : Scene F) (camera : Camera F) (width : Nat) :
    Nat → Nat → PixelBuffer → PixelBuffer
  | 0, _, buf => buf
  | n + 1, y, buf =>
    renderRows sqrt scene camera width n (y + 1)
      (renderRow sqrt scene camera width y width 0 buf)

/-- The function `Renderer::Render` (lines 38-55). Without an image the source dereferences
a null pointer; the model leaves the renderer as it is. -/
def Renderer.Render (sqrt : F → F) (self : Renderer) (scene : Scene F) (camera : Camera F) :
    Renderer :=
  match self.m_FinalImage with
  | none => self
  | some img =>
    let buf := renderRows sqrt scene camera img.GetWidth img.GetHeight 0 self.m_ImageData
    { self with m_ImageData := buf, m_FinalImage := some (img.SetData buf.data) }

/-! ### The same functions with every container access checked

In the definitions above an access out of range takes a default value. In the definitions
below it yields `none`: they return `some` result exactly when no access is out of
range. -/

/-- The function `TraceRay` with the reads `Spheres[closestSphere]` (line 103) and
`Materials[sphere.MaterialIndex]` (line 112) checked. -/
def TraceRayChecked (sqrt : F → F) (scene : Scene F) (ray : Ray F) : Option (Vec4 F) :=
  let hit := closestHit sqrt scene ray
  if hit.closestSphere < 0 then some ⟨0, 0, 0, 1⟩
  else
    match scene.Spheres[hit.closestSphere.toNat]? with
    | none => none
    | some sphere =>
      match scene.Materials[sphere.MaterialIndex]? with
      | none => none
      | some _ => some (shadeHit sqrt scene ray.Origin ray.Direction sphere hit.hitDistance)

/-- The body of the inner loop of `Render` (lines 47-50) with the read of
`GetRayDirections()[index]`, the reads of `TraceRay` and the write to `m_ImageData[index]`
checked. -/
def renderPixelChecked (sqrt : F → F) (scene : Scene F) (camera : Camera F) (width : Nat)
    (y x : Nat) (buf : PixelBuffer) : Option PixelBuffer :=
  let index := (x + y * width) % 2 ^ 32
  match camera.RayDirections[index]? with
  | none => none
  | some direction =>
    match TraceRayChecked sqrt scene ⟨camera.Position, direction⟩ with
    | none => none
    | some color =>
      if index < buf.data.length then
        some (buf.write index (ConvertToRGBA (clamp01 color)))
      else none

/-- The inner loop of `Render` (line 45) over the checked loop body. -/
def renderRowChecked (sqrt : F → F) (scene : Scene F) (camera : Camera F) (width : Nat)
    (y : Nat) : Nat → Nat → PixelBuffer → Option PixelBuffer
  | 0, _, buf => some buf
  | n + 1, x, buf =>
    match renderPixelChecked sqrt scene camera width y x buf with
    | none => none
    | some next => renderRowChecked sqrt scene camera width y n (x + 1) next

/-- The outer loop of `Render` (line 43) over the checked inner loop. -/
def renderRowsChecked (sqrt : F → F) (scene : Scene F) (camera : Camera F) (width : Nat) :
    Nat → Nat → PixelBuffer → Option PixelBuffer
  | 0, _, buf => some buf
  | n + 1, y, buf =>
    match renderRowChecked sqrt scene camera width y width 0 buf with
    | none => none
    | some next => renderRowsChecked sqrt scene camera width n (y + 1) next

/-- The function `Renderer::Render` (lines 38-55) over the checked loops; the null image is
`none` as well. -/
def Renderer.RenderChecked (sqrt : F → F) (self : Renderer) (scene : Scene F)
    (camera : Camera F) : Option Renderer :=
  match self.m_FinalImage with
  | none => none
  | some img =>
    match renderRowsChecked sqrt scene camera img.GetWidth img.GetHeight 0
        self.m_ImageData with
    | none => none
    | some buf =>
      some { self with m_ImageData := buf, m_FinalImage := some (img.SetData buf.data) }

end Render

/-- The renderer states a program can reach: a newly constructed renderer, followed by any
sequence of `OnResize` calls (with `uint32_t` arguments) and `Render` calls. -/
inductive Renderer.Reachable : Renderer → Prop
  | init : Renderer.Reachable Renderer.init
  | onResize (self : Renderer) (width height : Nat) :
      Renderer.Reachable self → width < 2 ^ 32 → height < 2 ^ 32 →
      Renderer.Reachable (self.OnResize width height)
  | render (self : Renderer) (scene : Scene ℝ) (camera : Camera ℝ) :
      Renderer.Reachable self → Renderer.Reachable (self.Render Real.sqrt scene camera)

/-! ## The colour packer -/

section PackerLemmas

/-- Four bytes combined with shifts and bitwise or add up without carries. -/
theorem packBytes_eq_sum (r g b a : Nat) (hr : r < 256) (hg : g < 256) (hb : b < 256)
    (ha : a < 256) :
    packBytes r g b a = r + 256 * g + 65536 * b + 16777216 * a := by
  have h1 : (g <<< 8) ||| r = 2 ^ 8 * g + r := by
    rw [Nat.shiftLeft_eq, Nat.mul_comm]
    exact (Nat.mul_add_lt_is_or (by omega) g).symm
  have h2 : (b <<< 16) ||| (2 ^ 8 * g + r) = 2 ^ 16 * b + (2 ^ 8 * g + r) := by
    rw [Nat.shiftLeft_eq, Nat.mul_comm]
    exact (Nat.mul_add_lt_is_or (by omega) b).symm
  have h3 : (a <<< 24) ||| (2 ^ 16 * b + (2 ^ 8 * g + r))
      = 2 ^ 24 * a + (2 ^ 16 * b + (2 ^ 8 * g + r)) := by
    rw [Nat.shiftLeft_eq, Nat.mul_comm]
    exact (Nat.mul_add_lt_is_or (by omega) a).symm
  unfold packBytes
  rw [Nat.or_assoc, Nat.or_assoc, h1, h2, h3]
  omega

/-- On `[0, 256)` the narrowing conversion is the floor. -/
theorem toUInt8_eq_floor (v : ℝ) (h0 : 0 ≤ v) (h1 : v < 256) : toUInt8 v = ⌊v⌋₊ := by
  unfold toUInt8
  rw [if_pos h0]
  have hf0 : 0 ≤ ⌊v⌋ := Int.floor_nonneg.mpr h0
  have hf1 : ⌊v⌋ < 256 := Int.floor_lt.mpr (by exact_mod_cast h1)
  rw [Int.emod_eq_of_lt hf0 hf1, Int.floor_toNat]

/-- A channel in `[0, 1]` scaled by 255 floors to a byte, and to 255 only at 1. -/
theorem floor_channel (c : ℝ) (h0 : 0 ≤ c) (h1 : c ≤ 1) :
    ⌊c * 255⌋₊ ≤ 255 ∧ (⌊c * 255⌋₊ = 255 ↔ c = 1) := by
  have hnn : 0 ≤ c * 255 := by positivity
  have hle : ⌊c * 255⌋₊ ≤ 255 := by
    have : ⌊c * 255⌋₊ < 256 := (Nat.floor_lt hnn).mpr (by norm_num; linarith)
    omega
  refine ⟨hle, ?_, ?_⟩
  · intro h
    have h2 := (Nat.floor_eq_iff hnn).mp h
    norm_num at h2
    linarith [h2.1]
  · intro h
    subst h
    rw [Nat.floor_eq_iff (by norm_num)]
    norm_num

/-- The packed value of a colour with channels in `[0, 1]` as a sum of four bytes. -/
theorem ConvertToRGBA_eq_sum (color : Vec4 ℝ) (hr : 0 ≤ color.r ∧ color.r ≤ 1)
    (hg : 0 ≤ color.g ∧ color.g ≤ 1) (hb : 0 ≤ color.b ∧ color.b ≤ 1)
    (ha : 0 ≤ color.a ∧ color.a ≤ 1) :
    ConvertToRGBA color = ⌊color.r * 255⌋₊ + 256 * ⌊color.g * 255⌋₊
      + 65536 * ⌊color.b * 255⌋₊ + 16777216 * ⌊color.a * 255⌋₊ := by
  have key : ∀ c : ℝ, 0 ≤ c ∧ c ≤ 1 → toUInt8 (c * 255) = ⌊c * 255⌋₊ ∧ ⌊c * 255⌋₊ < 256 := by
    intro c hc
    have h0 : 0 ≤ c * 255 := by have := hc.1; positivity
    have h1 : c * 255 < 256 := by linarith [hc.2]
    exact ⟨toUInt8_eq_floor _ h0 h1, (Nat.floor_lt h0).mpr (by exact_mod_cast h1)⟩
  unfold ConvertToRGBA
  simp only [(key _ hr).1, (key _ hg).1, (key _ hb).1, (key _ ha).1]
  exact packBytes_eq_sum _ _ _ _ (key _ hr).2 (key _ hg).2 (key _ hb).2 (key _ ha).2

/-- Clamping to `[0, 1]` lands in `[0, 1]`. -/
theorem clampScalar_mem (x : ℝ) : 0 ≤ clampScalar x 0 1 ∧ clampScalar x 0 1 ≤ 1 := by
  unfold clampScalar
  exact ⟨le_min (le_max_right _ _) zero_le_one, min_le_right _ _⟩

/-- Clamping to `[0, 1]` leaves a value of `[0, 1]` as it is. -/
theorem clampScalar_of_mem (x : ℝ) (h0 : 0 ≤ x) (h1 : x ≤ 1) : clampScalar x 0 1 = x := by
  unfold clampScalar
  rw [max_eq_left h0, min_eq_left h1]

/-- The packed values of the four colours `(1,0,0,1)`, `(0,1,0,1)`, `(0,0,1,1)` and
`(0,0,0,1)`. -/
theorem ConvertToRGBA_basis :
    ConvertToRGBA (⟨1, 0, 0, 1⟩ : Vec4 ℝ) = 0xFF0000FF
      ∧ ConvertToRGBA (⟨0, 1, 0, 1⟩ : Vec4 ℝ) = 0xFF00FF00
      ∧ ConvertToRGBA (⟨0, 0, 1, 1⟩ : Vec4 ℝ) = 0xFFFF0000
      ∧ ConvertToRGBA (⟨0, 0, 0, 1⟩ : Vec4 ℝ) = 0xFF000000 := by
  have f1 : ⌊(1 : ℝ) * 255⌋₊ = 255 := by
    rw [Nat.floor_eq_iff (by norm_num)]; norm_num
  have f0 : ⌊(0 : ℝ) * 255⌋₊ = 0 := by simp
  refine ⟨?_, ?_, ?_, ?_⟩
  · rw [ConvertToRGBA_eq_sum _ (by norm_num) (by norm_num) (by norm_num) (by norm_num)]
    simp only [f1, f0]
  · rw [ConvertToRGBA_eq_sum _ (by norm_num) (by norm_num) (by norm_num) (by norm_num)]
    simp only [f1, f0]
  · rw [ConvertToRGBA_eq_sum _ (by norm_num) (by norm_num) (by norm_num) (by norm_num)]
    simp only [f1, f0]
  · rw [ConvertToRGBA_eq_sum _ (by norm_num) (by norm_num) (by norm_num) (by norm_num)]
    simp only [f1, f0]

/-- The pixel stored for the background colour. -/
theorem background_pixel :
    ConvertToRGBA (clamp01 (⟨0, 0, 0, 1⟩ : Vec4 ℝ)) = 0xFF000000 := by
  have h : clamp01 (⟨0, 0, 0, 1⟩ : Vec4 ℝ) = ⟨0, 0, 0, 1⟩ := by
    simp only [clamp01, clampScalar]
    norm_num
  have f1 : ⌊(1 : ℝ) * 255⌋₊ = 255 := by
    rw [Nat.floor_eq_iff (by norm_num)]; norm_num
  have f0 : ⌊(0 : ℝ) * 255⌋₊ = 0 := by simp
  rw [h, ConvertToRGBA_eq_sum _ (by norm_num) (by norm_num) (by norm_num) (by norm_num)]
  simp only [f1, f0]

end PackerLemmas

/-! ## The nearest-hit loop over any arithmetic

The lemmas of this section hold for every carrier `F` of `float` values with its
operations and a decidable comparison `<`; where the order matters they assume that `<` is
transitive and that two values above 0 are comparable, which holds for the reals and for
IEEE 754 numbers (a NaN is not above 0). -/

section LoopLemmas

set_option linter.unusedSectionVars false

variable {F : Type} [Add F] [Sub F] [Mul F] [Div F] [Neg F] [OfNat F 0] [OfNat F 1] [OfNat F 2]
  [OfNat F 4] [Max F] [Pow F ℕ] [LT F] [DecidableRel ((· < ·) : F → F → Prop)]

/-- The formulas of the spec are the values that lines 75-92 compute. -/
theorem spec_formulas_eq (sqrt : F → F) (o d : Vec3 F) (s : Sphere F) :
    specDiscriminant o d s = discriminant o d s
      ∧ specNearRoot sqrt o d s = closestT sqrt o d s :=
  ⟨rfl, rfl⟩

/-- The loop body on a sphere that passes the three tests of lines 85 and 93. -/
theorem sphereStep_of_pass (sqrt : F → F) (o d : Vec3 F) (i : Nat) (s : Sphere F)
    (st : HitState F) (hD : ¬ discriminant o d s < 0) (h0 : 0 < closestT sqrt o d s)
    (h1 : closestT sqrt o d s < st.hitDistance) :
    sphereStep sqrt o d i s st = ⟨(i : Int), closestT sqrt o d s⟩ := by
  unfold sphereStep
  rw [if_neg hD]
  simp only [gt_iff_lt]
  rw [if_pos ⟨h0, h1⟩]

/-- The loop body on a sphere that fails one of the tests of lines 85 and 93. -/
theorem sphereStep_of_fail (sqrt : F → F) (o d : Vec3 F) (i : Nat) (s : Sphere F)
    (st : HitState F)
    (h : ¬ (¬ discriminant o d s < 0 ∧ 0 < closestT sqrt o d s
      ∧ closestT sqrt o d s < st.hitDistance)) :
    sphereStep sqrt o d i s st = st := by
  unfold sphereStep
  by_cases hD : discriminant o d s < 0
  · rw [if_pos hD]
  · rw [if_neg hD]
    simp only [gt_iff_lt]
    rw [if_neg (fun hc => h ⟨hD, hc.1, hc.2⟩)]

/-- What the loop over the spheres computes from the state `st` at index `i`: either no
sphere passes the tests against `st.hitDistance` and the state is unchanged, or the state
records, among the spheres that pass, the first one of least near root. -/
theorem traceLoop_select (sqrt : F → F) (htrans : ∀ x y z : F, x < y → y < z → x < z)
    (htri : ∀ x y : F, 0 < x → 0 < y → x < y ∨ x = y ∨ y < x)
    (o d : Vec3 F) (ss : List (Sphere F)) (i : Nat) (st : HitState F) :
    ((∀ s ∈ ss, ¬ (¬ discriminant o d s < 0 ∧ 0 < closestT sqrt o d s
          ∧ closestT sqrt o d s < st.hitDistance))
        ∧ traceLoop sqrt o d ss i st = st)
      ∨ ∃ (k : Nat) (s : Sphere F), ss[k]? = some s
          ∧ traceLoop sqrt o d ss i st = ⟨((i + k : Nat) : Int), closestT sqrt o d s⟩
          ∧ ¬ discriminant o d s < 0 ∧ 0 < closestT sqrt o d s
          ∧ closestT sqrt o d s < st.hitDistance
          ∧ (∀ (j : Nat) (u : Sphere F), ss[j]? = some u → ¬ discriminant o d u < 0 →
              0 < closestT sqrt o d u → closestT sqrt o d u < st.hitDistance →
              closestT sqrt o d s < closestT sqrt o d u
                ∨ closestT sqrt o d s = closestT sqrt o d u)
          ∧ (∀ (j : Nat) (u : Sphere F), j < k → ss[j]? = some u →
              ¬ discriminant o d u < 0 → 0 < closestT sqrt o d u →
              closestT sqrt o d u < st.hitDistance →
              closestT sqrt o d s < closestT sqrt o d u) := by
  induction ss generalizing i st with
  | nil =>
    left
    exact ⟨fun s hs => absurd hs (List.not_mem_nil s), rfl⟩
  | cons a rest ih =>
    rw [traceLoop]
    by_cases hacc : ¬ discriminant o d a < 0 ∧ 0 < closestT sqrt o d a
        ∧ closestT sqrt o d a < st.hitDistance
    · obtain ⟨hD, h0, h1⟩ := hacc
      rw [sphereStep_of_pass sqrt o d i a st hD h0 h1]
      right
      rcases ih (i + 1) ⟨(i : Int), closestT sqrt o d a⟩ with ⟨hnone, heq⟩ | hsome
      · refine ⟨0, a, List.getElem?_cons_zero, ?_, hD, h0, h1, ?_, ?_⟩
        · rw [heq]; rfl
        · intro j u hj huD hu0 _
          cases j with
          | zero =>
            rw [List.getElem?_cons_zero] at hj
            have e : a = u := Option.some.inj hj
            rw [e]
            exact Or.inr rfl
          | succ j =>
            rw [List.getElem?_cons_succ] at hj
            have hn := hnone u (List.getElem?_mem hj)
            rcases htri (closestT sqrt o d a) (closestT sqrt o d u) h0 hu0 with h | h | h
            · exact Or.inl h
            · exact Or.inr h
            · exact absurd ⟨huD, hu0, h⟩ hn
        · intro j u hj
          exact absurd hj (Nat.not_lt_zero j)
      · obtain ⟨k, s, hk, heq, hsD, hs0, hs1, hmin, hfirst⟩ := hsome
        have hs1a : closestT sqrt o d s < closestT sqrt o d a := hs1
        have hbelow : ∀ u : Sphere F, 0 < closestT sqrt o d u →
            ¬ closestT sqrt o d u < closestT sqrt o d a →
            closestT sqrt o d s < closestT sqrt o d u := by
          intro u hu0 hnot
          rcases htri (closestT sqrt o d u) (closestT sqrt o d a) hu0 h0 with h | h | h
          · exact absurd h hnot
          · rw [h]; exact hs1a
          · exact htrans _ _ _ hs1a h
        refine ⟨k + 1, s, by rw [List.getElem?_cons_succ]; exact hk, ?_, hsD, hs0,
          htrans _ _ _ hs1a h1, ?_, ?_⟩
        · rw [heq]
          have e : i + 1 + k = i + (k + 1) := by omega
          rw [e]
        · intro j u hj huD hu0 _
          cases j with
          | zero =>
            rw [List.getElem?_cons_zero] at hj
            have e : a = u := Option.some.inj hj
            rw [← e]
            exact Or.inl hs1a
          | succ j =>
            rw [List.getElem?_cons_succ] at hj
            by_cases hlt : closestT sqrt o d u < closestT sqrt o d a
            · exact hmin j u hj huD hu0 hlt
            · exact Or.inl (hbelow u hu0 hlt)
        · intro j u hjk hj huD hu0 _
          cases j with
          | zero =>
            rw [List.getElem?_cons_zero] at hj
            have e : a = u := Option.some.inj hj
            rw [← e]
            exact hs1a
          | succ j =>
            rw [List.getElem?_cons_succ] at hj
            by_cases hlt : closestT sqrt o d u < closestT sqrt o d a
            · exact hfirst j u (by omega) hj huD hu0 hlt
            · exact hbelow u hu0 hlt
    · rw [sphereStep_of_fail sqrt o d i a st hacc]
      rcases ih (i + 1) st with ⟨hnone, heq⟩ | hsome
      · left
        refine ⟨?_, heq⟩
        intro s hs
        rcases List.mem_cons.mp hs with h | h
        · rw [h]; exact hacc
        · exact hnone s h
      · right
        obtain ⟨k, s, hk, heq, hsD, hs0, hs1, hmin, hfirst⟩ := hsome
        refine ⟨k + 1, s, by rw [List.getElem?_cons_succ]; exact hk, ?_, hsD, hs0, hs1,
          ?_, ?_⟩
        · rw [heq]
          have e : i + 1 + k = i + (k + 1) := by omega
          rw [e]
        · intro j u hj huD hu0 hu1
          cases j with
          | zero =>
            rw [List.getElem?_cons_zero] at hj
            have e : a = u := Option.some.inj hj
            rw [← e] at huD hu0 hu1
            exact absurd ⟨huD, hu0, hu1⟩ hacc
          | succ j =>
            rw [List.getElem?_cons_succ] at hj
            exact hmin j u hj huD hu0 hu1
        · intro j u hjk hj huD hu0 hu1
          cases j with
          | zero =>
            rw [List.getElem?_cons_zero] at hj
            have e : a = u := Option.some.inj hj
            rw [← e] at huD hu0 hu1
            exact absurd ⟨huD, hu0, hu1⟩ hacc
          | succ j =>
            rw [List.getElem?_cons_succ] at hj
            exact hfirst j u (by omega) hj huD hu0 hu1

end LoopLemmas

/-! ## The nearest-hit loop -/

section TraceLemmas

variable (o d : Vec3 ℝ)

/-- The loop body on a sphere that passes the three tests of lines 85 and 93. -/
theorem sphereStep_accept (i : Nat) (s : Sphere ℝ) (st : HitState ℝ)
    (hD : 0 ≤ discriminant o d s) (h0 : 0 < closestT Real.sqrt o d s)
    (h1 : closestT Real.sqrt o d s < st.hitDistance) :
    sphereStep Real.sqrt o d i s st = ⟨(i : Int), closestT Real.sqrt o d s⟩ := by
  unfold sphereStep
  rw [if_neg (not_lt.mpr hD)]
  simp only [gt_iff_lt, h0, h1, and_self, if_true]

/-- The loop body on a sphere that fails one of the tests of lines 85 and 93. -/
theorem sphereStep_reject (i : Nat) (s : Sphere ℝ) (st : HitState ℝ)
    (h : ¬ (0 ≤ discriminant o d s ∧ 0 < closestT Real.sqrt o d s
      ∧ closestT Real.sqrt o d s < st.hitDistance)) :
    sphereStep Real.sqrt o d i s st = st := by
  unfold sphereStep
  by_cases hD : discriminant o d s < 0
  · rw [if_pos hD]
  · rw [if_neg hD]
    have hD' : 0 ≤ discriminant o d s := not_lt.mp hD
    have : ¬ (closestT Real.sqrt o d s > 0 ∧ closestT Real.sqrt o d s < st.hitDistance) :=
      fun hc => h ⟨hD', hc.1, hc.2⟩
    simp only [this, if_false]

/-- What the loop over the spheres computes from the state `st` at index `i`: either no
sphere passes the tests against `st.hitDistance` and the state is unchanged, or the state
records the first sphere among those of least `closestT`. -/
theorem traceLoop_spec (ss : List (Sphere ℝ)) (i : Nat) (st : HitState ℝ) :
    ((∀ s ∈ ss, ¬ (0 ≤ discriminant o d s ∧ 0 < closestT Real.sqrt o d s
          ∧ closestT Real.sqrt o d s < st.hitDistance))
        ∧ traceLoop Real.sqrt o d ss i st = st)
      ∨ ∃ (k : Nat) (s : Sphere ℝ), ss[k]? = some s
          ∧ traceLoop Real.sqrt o d ss i st = ⟨((i + k : Nat) : Int), closestT Real.sqrt o d s⟩
          ∧ 0 ≤ discriminant o d s ∧ 0 < closestT Real.sqrt o d s
          ∧ closestT Real.sqrt o d s < st.hitDistance
          ∧ (∀ (j : Nat) (u : Sphere ℝ), ss[j]? = some u → 0 ≤ discriminant o d u →
              0 < closestT Real.sqrt o d u →
              closestT Real.sqrt o d s ≤ closestT Real.sqrt o d u)
          ∧ (∀ (j : Nat) (u : Sphere ℝ), j < k → ss[j]? = some u → 0 ≤ discriminant o d u →
              0 < closestT Real.sqrt o d u →
              closestT Real.sqrt o d s < closestT Real.sqrt o d u) := by
  induction ss generalizing i st with
  | nil =>
    left
    exact ⟨fun s hs => absurd hs (List.not_mem_nil s), rfl⟩
  | cons a rest ih =>
    rw [traceLoop]
    by_cases hacc : 0 ≤ discriminant o d a ∧ 0 < closestT Real.sqrt o d a
        ∧ closestT Real.sqrt o d a < st.hitDistance
    · obtain ⟨hD, h0, h1⟩ := hacc
      rw [sphereStep_accept o d i a st hD h0 h1]
      right
      rcases ih (i + 1) ⟨(i : Int), closestT Real.sqrt o d a⟩ with ⟨hnone, heq⟩ | hsome
      · refine ⟨0, a, List.getElem?_cons_zero, ?_, hD, h0, h1, ?_, ?_⟩
        · rw [heq]; rfl
        · intro j u hj huD hu0
          cases j with
          | zero =>
            rw [List.getElem?_cons_zero] at hj
            have e : a = u := Option.some.inj hj
            rw [e]
          | succ j =>
            rw [List.getElem?_cons_succ] at hj
            have hmem : u ∈ rest := List.getElem?_mem hj
            have hn := hnone u hmem
            by_contra hlt
            exact hn ⟨huD, hu0, not_le.mp hlt⟩
        · intro j u hj
          exact absurd hj (Nat.not_lt_zero j)
      · obtain ⟨k, s, hk, heq, hsD, hs0, hs1, hmin, hfirst⟩ := hsome
        have hs1a : closestT Real.sqrt o d s < closestT Real.sqrt o d a := hs1
        refine ⟨k + 1, s, by rw [List.getElem?_cons_succ]; exact hk, ?_, hsD, hs0, lt_trans hs1a h1, ?_, ?_⟩
        · rw [heq]
          have e : i + 1 + k = i + (k + 1) := by omega
          rw [e]
        · intro j u hj huD hu0
          cases j with
          | zero =>
            rw [List.getElem?_cons_zero] at hj
            have e : a = u := Option.some.inj hj
            rw [← e]
            exact le_of_lt hs1a
          | succ j =>
            rw [List.getElem?_cons_succ] at hj
            exact hmin j u hj huD hu0
        · intro j u hjk hj huD hu0
          cases j with
          | zero =>
            rw [List.getElem?_cons_zero] at hj
            have e : a = u := Option.some.inj hj
            rw [← e]
            exact hs1a
          | succ j =>
            rw [List.getElem?_cons_succ] at hj
            exact hfirst j u (by omega) hj huD hu0
    · rw [sphereStep_reject o d i a st hacc]
      rcases ih (i + 1) st with ⟨hnone, heq⟩ | hsome
      · left
        refine ⟨?_, heq⟩
        intro s hs
        rcases List.mem_cons.mp hs with h | h
        · rw [h]; exact hacc
        · exact hnone s h
      · right
        obtain ⟨k, s, hk, heq, hsD, hs0, hs1, hmin, hfirst⟩ := hsome
        have hge : ∀ u, a = u → 0 ≤ discriminant o d u → 0 < closestT Real.sqrt o d u →
            st.hitDistance ≤ closestT Real.sqrt o d u := by
          intro u e huD hu0
          subst e
          by_contra hlt
          exact hacc ⟨huD, hu0, not_le.mp hlt⟩
        refine ⟨k + 1, s, by rw [List.getElem?_cons_succ]; exact hk, ?_, hsD, hs0, hs1, ?_, ?_⟩
        · rw [heq]
          have e : i + 1 + k = i + (k + 1) := by omega
          rw [e]
        · intro j u hj huD hu0
          cases j with
          | zero =>
            rw [List.getElem?_cons_zero] at hj
            exact le_trans (le_of_lt hs1) (hge u (Option.some.inj hj) huD hu0)
          | succ j =>
            rw [List.getElem?_cons_succ] at hj
            exact hmin j u hj huD hu0
        · intro j u hjk hj huD hu0
          cases j with
          | zero =>
            rw [List.getElem?_cons_zero] at hj
            exact lt_of_lt_of_le hs1 (hge u (Option.some.inj hj) huD hu0)
          | succ j =>
            rw [List.getElem?_cons_succ] at hj
            exact hfirst j u (by omega) hj huD hu0

/-- Without a sphere that passes the tests against `FLT_MAX`, the loop leaves its initial
state and `TraceRay` returns the background colour. -/
theorem TraceRay_of_no_candidate (scene : Scene ℝ) (ray : Ray ℝ)
    (h : ∀ s ∈ scene.Spheres, ¬ (0 ≤ discriminant ray.Origin ray.Direction s
      ∧ 0 < closestT Real.sqrt ray.Origin ray.Direction s
      ∧ closestT Real.sqrt ray.Origin ray.Direction s < FLT_MAX)) :
    closestHit Real.sqrt scene ray = ⟨-1, FLT_MAX⟩
      ∧ TraceRay Real.sqrt scene ray = ⟨0, 0, 0, 1⟩ := by
  have hloop : closestHit Real.sqrt scene ray = ⟨-1, FLT_MAX⟩ := by
    unfold closestHit
    rcases traceLoop_spec ray.Origin ray.Direction scene.Spheres 0 ⟨-1, FLT_MAX⟩ with
      ⟨_, heq⟩ | ⟨k, s, hk, _, hD, h0, h1, _, _⟩
    · exact heq
    · exact absurd ⟨hD, h0, h1⟩ (h s (List.getElem?_mem hk))
  refine ⟨hloop, ?_⟩
  unfold TraceRay
  simp only [hloop]
  rw [if_pos (by norm_num)]

end TraceLemmas

/-! ## Concrete scenes -/

section SceneLemmas

/-- The square root of 4. -/
theorem sqrt_four : Real.sqrt 4 = 2 := by
  rw [Real.sqrt_eq_iff_mul_self_eq (by norm_num) (by norm_num)]; norm_num

/-- Bounds on the square root of 3. -/
theorem sqrt_three_bounds : (1.73 : ℝ) < Real.sqrt 3 ∧ Real.sqrt 3 ≤ 1.7321 := by
  constructor
  · rw [Real.lt_sqrt (by norm_num)]; norm_num
  · rw [Real.sqrt_le_left (by norm_num)]; norm_num

/-- The initial bound of the loop is above 2. -/
theorem two_lt_FLT_MAX : (2 : ℝ) < FLT_MAX := by
  unfold FLT_MAX
  norm_num

/-- The unit sphere at the origin seen from `(0, 0, 3)` along `(0, 0, -1)`: discriminant 4
and near root 2. -/
theorem unit_sphere_near_root (m : Nat) :
    discriminant (⟨0, 0, 3⟩ : Vec3 ℝ) ⟨0, 0, -1⟩ ⟨⟨0, 0, 0⟩, 1, m⟩ = 4
      ∧ closestT Real.sqrt (⟨0, 0, 3⟩ : Vec3 ℝ) ⟨0, 0, -1⟩ ⟨⟨0, 0, 0⟩, 1, m⟩ = 2 := by
  have hD : discriminant (⟨0, 0, 3⟩ : Vec3 ℝ) ⟨0, 0, -1⟩ ⟨⟨0, 0, 0⟩, 1, m⟩ = 4 := by
    simp only [discriminant, dot, Vec3.sub]
    norm_num
  refine ⟨hD, ?_⟩
  unfold closestT
  rw [hD, sqrt_four]
  simp only [dot, Vec3.sub]
  norm_num

/-- The loop over the one-sphere scene records sphere 0 at distance 2. -/
theorem unit_sphere_closestHit :
    closestHit Real.sqrt (⟨[⟨⟨0, 0, 0⟩, 1, 0⟩], [⟨⟨1, 0, 0⟩⟩]⟩ : Scene ℝ)
      ⟨⟨0, 0, 3⟩, ⟨0, 0, -1⟩⟩ = ⟨0, 2⟩ := by
  obtain ⟨hD, hT⟩ := unit_sphere_near_root 0
  unfold closestHit
  simp only [traceLoop]
  rw [sphereStep_accept _ _ _ _ _ (by rw [hD]; norm_num) (by rw [hT]; norm_num)
    (by rw [hT]; exact two_lt_FLT_MAX), hT]
  rfl

/-- The colour of the one-sphere scene along `(0, 0, -1)`. -/
theorem unit_sphere_color :
    TraceRay Real.sqrt (⟨[⟨⟨0, 0, 0⟩, 1, 0⟩], [⟨⟨1, 0, 0⟩⟩]⟩ : Scene ℝ)
      ⟨⟨0, 0, 3⟩, ⟨0, 0, -1⟩⟩ = ⟨1 / Real.sqrt 3, 0, 0, 1⟩ := by
  unfold TraceRay
  simp only [unit_sphere_closestHit]
  rw [if_neg (by norm_num)]
  simp only [shadeHit, normalize, dot, Vec3.sub, Vec3.add, Vec3.scale, Vec3.neg]
  norm_num

/-- The unit sphere at the origin seen from `(0, 0, 3)` along `(5, 5, -1)`: negative
discriminant. -/
theorem unit_sphere_miss :
    discriminant (⟨0, 0, 3⟩ : Vec3 ℝ) ⟨5, 5, -1⟩ ⟨⟨0, 0, 0⟩, 1, 0⟩ < 0 := by
  simp only [discriminant, dot, Vec3.sub]
  norm_num

/-- The colour of the one-sphere scene along `(5, 5, -1)`. -/
theorem unit_sphere_miss_color :
    TraceRay Real.sqrt (⟨[⟨⟨0, 0, 0⟩, 1, 0⟩], [⟨⟨1, 0, 0⟩⟩]⟩ : Scene ℝ)
      ⟨⟨0, 0, 3⟩, ⟨5, 5, -1⟩⟩ = ⟨0, 0, 0, 1⟩ := by
  apply (TraceRay_of_no_candidate _ _ ?_).2
  intro s hs hc
  rw [List.mem_singleton] at hs
  subst hs
  exact absurd hc.1 (not_le.mpr unit_sphere_miss)

/-- The pixel stored for the colour `(1 / sqrt 3, 0, 0, 1)`. -/
theorem red_pixel :
    ConvertToRGBA (clamp01 (⟨1 / Real.sqrt 3, 0, 0, 1⟩ : Vec4 ℝ)) = 0xFF000093 := by
  obtain ⟨hlo, hhi⟩ := sqrt_three_bounds
  have hpos : (0 : ℝ) < Real.sqrt 3 := by linarith
  have h0 : (0 : ℝ) ≤ 1 / Real.sqrt 3 := by positivity
  have h1 : 1 / Real.sqrt 3 ≤ (1 : ℝ) := by
    rw [div_le_one hpos]; linarith
  have h : clamp01 (⟨1 / Real.sqrt 3, 0, 0, 1⟩ : Vec4 ℝ) = ⟨1 / Real.sqrt 3, 0, 0, 1⟩ := by
    simp only [clamp01, clampScalar_of_mem _ h0 h1]
    simp only [clampScalar]
    norm_num
  have fr : ⌊1 / Real.sqrt 3 * 255⌋₊ = 147 := by
    rw [Nat.floor_eq_iff (by positivity)]
    constructor
    · rw [one_div, inv_mul_eq_div, le_div_iff₀ hpos]
      norm_num
      linarith
    · rw [one_div, inv_mul_eq_div, div_lt_iff₀ hpos]
      norm_num
      linarith
  have f1 : ⌊(1 : ℝ) * 255⌋₊ = 255 := by
    rw [Nat.floor_eq_iff (by norm_num)]; norm_num
  have f0 : ⌊(0 : ℝ) * 255⌋₊ = 0 := by simp
  rw [h, ConvertToRGBA_eq_sum _ ⟨h0, h1⟩ (by norm_num) (by norm_num) (by norm_num)]
  simp only [fr, f1, f0]

/-- The loop over the one-sphere scene with albedo `(3, -1, 1)` records sphere 0 at
distance 2. -/
theorem bright_sphere_closestHit :
    closestHit Real.sqrt (⟨[⟨⟨0, 0, 0⟩, 1, 0⟩], [⟨⟨3, -1, 1⟩⟩]⟩ : Scene ℝ)
      ⟨⟨0, 0, 3⟩, ⟨0, 0, -1⟩⟩ = ⟨0, 2⟩ := by
  obtain ⟨hD, hT⟩ := unit_sphere_near_root 0
  unfold closestHit
  simp only [traceLoop]
  rw [sphereStep_accept _ _ _ _ _ (by rw [hD]; norm_num) (by rw [hT]; norm_num)
    (by rw [hT]; exact two_lt_FLT_MAX), hT]
  rfl

/-- The colour of the one-sphere scene with albedo `(3, -1, 1)` along `(0, 0, -1)`: the red
channel is above 1 and the green channel below 0. -/
theorem bright_sphere_color :
    TraceRay Real.sqrt (⟨[⟨⟨0, 0, 0⟩, 1, 0⟩], [⟨⟨3, -1, 1⟩⟩]⟩ : Scene ℝ)
      ⟨⟨0, 0, 3⟩, ⟨0, 0, -1⟩⟩ = ⟨3 / Real.sqrt 3, -(1 / Real.sqrt 3), 1 / Real.sqrt 3, 1⟩ := by
  unfold TraceRay
  simp only [bright_sphere_closestHit]
  rw [if_neg (by norm_num)]
  simp only [shadeHit, normalize, dot, Vec3.sub, Vec3.add, Vec3.scale, Vec3.neg]
  norm_num
  rw [← div_eq_mul_inv, Real.div_sqrt]

/-- The pixel stored for the colour `(3 / sqrt 3, -(1 / sqrt 3), 1 / sqrt 3, 1)`. -/
theorem bright_sphere_pixel :
    ConvertToRGBA (clamp01 (⟨3 / Real.sqrt 3, -(1 / Real.sqrt 3), 1 / Real.sqrt 3, 1⟩ : Vec4 ℝ))
      = 0xFF9300FF := by
  obtain ⟨hlo, hhi⟩ := sqrt_three_bounds
  have hpos : (0 : ℝ) < Real.sqrt 3 := by linarith
  have h0 : (0 : ℝ) ≤ 1 / Real.sqrt 3 := by positivity
  have h1 : 1 / Real.sqrt 3 ≤ (1 : ℝ) := by
    rw [div_le_one hpos]; linarith
  have h3 : (1 : ℝ) ≤ 3 / Real.sqrt 3 := by
    rw [le_div_iff₀ hpos]; linarith
  have h : clamp01 (⟨3 / Real.sqrt 3, -(1 / Real.sqrt 3), 1 / Real.sqrt 3, 1⟩ : Vec4 ℝ)
      = ⟨1, 0, 1 / Real.sqrt 3, 1⟩ := by
    simp only [clamp01, clampScalar_of_mem _ h0 h1]
    simp only [clampScalar]
    rw [max_eq_left (by linarith), min_eq_right h3, max_eq_right (by linarith)]
    norm_num
  have fr : ⌊1 / Real.sqrt 3 * 255⌋₊ = 147 := by
    rw [Nat.floor_eq_iff (by positivity)]
    constructor
    · rw [one_div, inv_mul_eq_div, le_div_iff₀ hpos]
      norm_num
      linarith
    · rw [one_div, inv_mul_eq_div, div_lt_iff₀ hpos]
      norm_num
      linarith
  have f1 : ⌊(1 : ℝ) * 255⌋₊ = 255 := by
    rw [Nat.floor_eq_iff (by norm_num)]; norm_num
  have f0 : ⌊(0 : ℝ) * 255⌋₊ = 0 := by simp
  rw [h, ConvertToRGBA_eq_sum _ (by norm_num) (by norm_num) ⟨h0, h1⟩ (by norm_num)]
  simp only [fr, f1, f0]

end SceneLemmas

/-! ## The frame buffer -/

section RenderLemmas

variable (scene : Scene ℝ) (camera : Camera ℝ)

/-- A row of `Render` keeps the length of the buffer. -/
theorem renderRow_length (width y n x : Nat) (buf : PixelBuffer) :
    (renderRow Real.sqrt scene camera width y n x buf).data.length = buf.data.length := by
  induction n generalizing x buf with
  | zero => rfl
  | succ n ih =>
    rw [renderRow, ih]
    simp only [renderPixel, PixelBuffer.write, List.length_set]

/-- The rows of `Render` keep the length of the buffer. -/
theorem renderRows_length (width n y : Nat) (buf : PixelBuffer) :
    (renderRows Real.sqrt scene camera width n y buf).data.length = buf.data.length := by
  induction n generalizing y buf with
  | zero => rfl
  | succ n ih => rw [renderRows, ih, renderRow_length]

/-- The contents of the buffer after `n` columns of row `y`, from column `x` on. -/
theorem renderRow_getElem? (width y n x : Nat) (buf : PixelBuffer)
    (hx : x + n ≤ width) (hlen : y * width + width ≤ buf.data.length) (j : Nat) :
    (renderRow Real.sqrt scene camera width y n x buf).data[j]?
      = if y * width + x ≤ j ∧ j < y * width + x + n
        then some (pixelColor Real.sqrt scene camera j) else buf.data[j]? := by
  induction n generalizing x buf with
  | zero =>
    rw [renderRow, if_neg (by omega)]
  | succ n ih =>
    have hlt := buf.size_lt
    have hidx : (x + y * width) % 2 ^ 32 = y * width + x := by
      rw [Nat.mod_eq_of_lt (by omega)]; omega
    rw [renderRow, ih (x + 1) _ (by omega)
      (by simpa only [renderPixel, PixelBuffer.write, List.length_set] using hlen)]
    simp only [renderPixel, PixelBuffer.write, hidx]
    by_cases h1 : y * width + (x + 1) ≤ j ∧ j < y * width + (x + 1) + n
    · rw [if_pos h1, if_pos (by omega)]
    · rw [if_neg h1]
      by_cases h2 : y * width + x = j
      · subst h2
        rw [List.getElem?_set_self (by omega), if_pos (by omega)]
      · rw [List.getElem?_set_ne h2, if_neg (by omega)]

/-- The contents of the buffer after `n` rows, from row `y` on. -/
theorem renderRows_getElem? (width n y : Nat) (buf : PixelBuffer)
    (hlen : (y + n) * width ≤ buf.data.length) (j : Nat) :
    (renderRows Real.sqrt scene camera width n y buf).data[j]?
      = if y * width ≤ j ∧ j < (y + n) * width
        then some (pixelColor Real.sqrt scene camera j) else buf.data[j]? := by
  induction n generalizing y buf with
  | zero =>
    rw [renderRows, if_neg (by simp only [Nat.add_zero]; omega)]
  | succ n ih =>
    have e1 : (y + (n + 1)) * width = y * width + width + n * width := by ring
    have e2 : (y + 1 + n) * width = y * width + width + n * width := by ring
    have e3 : (y + 1) * width = y * width + width := by ring
    have hrow : y * width + width ≤ buf.data.length := by
      have := Nat.zero_le (n * width); omega
    rw [renderRows, ih (y + 1) _ (by rw [renderRow_length]; omega),
      renderRow_getElem? scene camera width y width 0 buf (by omega) hrow j]
    by_cases h1 : (y + 1) * width ≤ j ∧ j < (y + 1 + n) * width
    · rw [if_pos h1, if_pos (by omega)]
    · rw [if_neg h1]
      by_cases h2 : y * width + 0 ≤ j ∧ j < y * width + 0 + width
      · rw [if_pos h2, if_pos (by omega)]
      · rw [if_neg h2, if_neg (by omega)]

/-- The result of `Render` when the image exists. -/
theorem Render_of_image (self : Renderer) (img : Image) (himg : self.m_FinalImage = some img) :
    self.Render Real.sqrt scene camera
      = { self with
          m_ImageData :=
            renderRows Real.sqrt scene camera img.Width img.Height 0 self.m_ImageData,
          m_FinalImage := some (img.SetData
            (renderRows Real.sqrt scene camera img.Width img.Height 0 self.m_ImageData).data) } := by
  unfold Renderer.Render
  rw [himg]
  rfl

/-- The call `Render` keeps the length of the buffer. -/
theorem Render_length (self : Renderer) :
    (self.Render Real.sqrt scene camera).m_ImageData.data.length
      = self.m_ImageData.data.length := by
  cases himg : self.m_FinalImage with
  | none => unfold Renderer.Render; rw [himg]
  | some img => rw [Render_of_image scene camera self img himg]; exact renderRows_length _ _ _ _ _ _

/-- The call `Render` keeps the dimensions of the image. -/
theorem Render_dimensions (self : Renderer) (img : Image)
    (himg : self.m_FinalImage = some img) :
    ∃ im : Image, (self.Render Real.sqrt scene camera).m_FinalImage = some im
      ∧ im.Width = img.Width ∧ im.Height = img.Height := by
  rw [Render_of_image scene camera self img himg]
  exact ⟨_, rfl, rfl, rfl⟩

/-- After `OnResize` the image exists and has the requested dimensions. -/
theorem OnResize_image (self : Renderer) (width height : Nat) :
    ∃ img : Image, (self.OnResize width height).m_FinalImage = some img
      ∧ img.GetWidth = width ∧ img.GetHeight = height := by
  unfold Renderer.OnResize
  cases himg : self.m_FinalImage with
  | none => exact ⟨_, rfl, rfl, rfl⟩
  | some img =>
    by_cases h : img.GetWidth = width ∧ img.GetHeight = height
    · simp only [if_pos h]
      exact ⟨img, himg, h.1, h.2⟩
    · simp only [if_neg h]
      exact ⟨_, rfl, rfl, rfl⟩

/-- With an image of the requested dimensions, `OnResize` returns at line 25. -/
theorem OnResize_of_same (self : Renderer) (img : Image) (width height : Nat)
    (himg : self.m_FinalImage = some img) (hw : img.GetWidth = width)
    (hh : img.GetHeight = height) : self.OnResize width height = self := by
  unfold Renderer.OnResize
  rw [himg]
  simp only [if_pos (And.intro hw hh)]

/-- The buffer after `OnResize`, when the image of the earlier state is consistent with
its buffer. -/
theorem OnResize_length (self : Renderer) (width height : Nat)
    (hinv : ∀ img, self.m_FinalImage = some img →
      self.m_ImageData.data.length = (img.Width * img.Height) % 2 ^ 32) :
    (self.OnResize width height).m_ImageData.data.length = (width * height) % 2 ^ 32 := by
  unfold Renderer.OnResize
  cases himg : self.m_FinalImage with
  | none => simp only [Renderer.reallocate, PixelBuffer.alloc, List.length_replicate]
  | some img =>
    by_cases h : img.GetWidth = width ∧ img.GetHeight = height
    · simp only [if_pos h]
      rw [hinv img himg]
      have h1 : img.Width = width := h.1
      have h2 : img.Height = height := h.2
      rw [h1, h2]
    · simp only [if_neg h, Renderer.reallocate, PixelBuffer.alloc, List.length_replicate]

/-- In every reachable state the buffer has `Width * Height` slots, the product taken in
`uint32_t` arithmetic. -/
theorem Reachable_consistent (self : Renderer) (h : self.Reachable) :
    ∀ img, self.m_FinalImage = some img →
      self.m_ImageData.data.length = (img.Width * img.Height) % 2 ^ 32 := by
  induction h with
  | init => intro img himg; simp [Renderer.init] at himg
  | onResize st width height _ _ _ ih =>
    intro img himg
    obtain ⟨im, h1, h2, h3⟩ := OnResize_image st width height
    rw [h1] at himg
    have e : im = img := Option.some.inj himg
    subst e
    have hwid : im.Width = width := h2
    have hhei : im.Height = height := h3
    rw [OnResize_length st width height ih, hwid, hhei]
  | render st scene camera _ ih =>
    intro img himg
    cases hst : st.m_FinalImage with
    | none =>
      have : st.Render Real.sqrt scene camera = st := by
        unfold Renderer.Render; rw [hst]
      rw [this, hst] at himg
      cases himg
    | some img0 =>
      obtain ⟨im, h1, h2, h3⟩ := Render_dimensions scene camera st img0 hst
      rw [h1] at himg
      have e : im = img := Option.some.inj himg
      subst e
      rw [Render_length, ih img0 hst, h2, h3]

end RenderLemmas

/-! ## The selected sphere -/

section HitLemmas

/-- When the loop ends with `closestSphere = k` and sphere `k` is `s`, that sphere passed
the tests of lines 85 and 93, `hitDistance` is its near root and `TraceRay` shades it. -/
theorem closestHit_selected (scene : Scene ℝ) (ray : Ray ℝ) (k : Nat) (s : Sphere ℝ) (t : ℝ)
    (hsel : closestHit Real.sqrt scene ray = ⟨(k : Int), t⟩)
    (hk : scene.Spheres[k]? = some s) :
    t = closestT Real.sqrt ray.Origin ray.Direction s
      ∧ 0 ≤ discriminant ray.Origin ray.Direction s
      ∧ 0 < closestT Real.sqrt ray.Origin ray.Direction s
      ∧ closestT Real.sqrt ray.Origin ray.Direction s < FLT_MAX
      ∧ TraceRay Real.sqrt scene ray = shadeHit Real.sqrt scene ray.Origin ray.Direction s t := by
  have htrace : TraceRay Real.sqrt scene ray
      = shadeHit Real.sqrt scene ray.Origin ray.Direction s t := by
    unfold TraceRay
    simp only [hsel]
    rw [if_neg (by omega)]
    simp only [Int.toNat_ofNat, List.getD_eq_getElem?_getD, hk, Option.getD_some]
  have hloop : closestHit Real.sqrt scene ray
      = traceLoop Real.sqrt ray.Origin ray.Direction scene.Spheres 0 ⟨-1, FLT_MAX⟩ := rfl
  rcases traceLoop_spec ray.Origin ray.Direction scene.Spheres 0 ⟨-1, FLT_MAX⟩ with
    ⟨_, heq⟩ | ⟨j, u, hj, heq, hD, h0, h1, _, _⟩
  · rw [hloop, heq, HitState.mk.injEq] at hsel
    omega
  · rw [hloop, heq, HitState.mk.injEq, Nat.zero_add] at hsel
    obtain ⟨hjk, ht⟩ := hsel
    have hjk2 : j = k := by exact_mod_cast hjk
    subst hjk2
    rw [hk] at hj
    have e : s = u := Option.some.inj hj
    subst e
    exact ⟨ht.symm, hD, h0, h1, htrace⟩

/-- The loop ends either in its initial state, or with the index of a sphere of the
scene. -/
theorem closestHit_index (scene : Scene ℝ) (ray : Ray ℝ) :
    closestHit Real.sqrt scene ray = ⟨-1, FLT_MAX⟩
      ∨ ∃ (k : Nat) (s : Sphere ℝ), scene.Spheres[k]? = some s
          ∧ closestHit Real.sqrt scene ray
            = ⟨(k : Int), closestT Real.sqrt ray.Origin ray.Direction s⟩ := by
  have hloop : closestHit Real.sqrt scene ray
      = traceLoop Real.sqrt ray.Origin ray.Direction scene.Spheres 0 ⟨-1, FLT_MAX⟩ := rfl
  rcases traceLoop_spec ray.Origin ray.Direction scene.Spheres 0 ⟨-1, FLT_MAX⟩ with
    ⟨_, heq⟩ | ⟨j, u, hj, heq, _, _, _, _, _⟩
  · left; rw [hloop, heq]
  · right
    refine ⟨j, u, hj, ?_⟩
    rw [hloop, heq, Nat.zero_add]

/-- The vector `-lightDir` of line 110 is `(1, 1, 1) / sqrt 3`. -/
theorem neg_lightDir :
    (normalize Real.sqrt (⟨-1, -1, -1⟩ : Vec3 ℝ)).neg
      = ⟨1 / Real.sqrt 3, 1 / Real.sqrt 3, 1 / Real.sqrt 3⟩ := by
  have h3 : dot (⟨-1, -1, -1⟩ : Vec3 ℝ) ⟨-1, -1, -1⟩ = 3 := by
    simp only [dot]; norm_num
  simp only [normalize, h3, Vec3.neg, Vec3.scale, Vec3.mk.injEq]
  refine ⟨by ring, by ring, by ring⟩

end HitLemmas

/-! ## Accesses in range -/

section CheckedLemmas

variable (scene : Scene ℝ) (camera : Camera ℝ)

/-- With every `MaterialIndex` in range, no read of `TraceRay` is out of range. -/
theorem TraceRayChecked_eq (ray : Ray ℝ)
    (hmat : ∀ s ∈ scene.Spheres, s.MaterialIndex < scene.Materials.length) :
    TraceRayChecked Real.sqrt scene ray = some (TraceRay Real.sqrt scene ray) := by
  rcases closestHit_index scene ray with h | ⟨k, s, hk, h⟩
  · unfold TraceRayChecked TraceRay
    simp only [h]
    rw [if_pos (by norm_num), if_pos (by norm_num)]
  · have hm : s.MaterialIndex < scene.Materials.length := hmat s (List.getElem?_mem hk)
    unfold TraceRayChecked TraceRay
    simp only [h]
    rw [if_neg (by omega), if_neg (by omega)]
    simp only [Int.toNat_ofNat, hk, List.getElem?_eq_getElem hm,
      List.getD_eq_getElem?_getD, Option.getD_some]

/-- The index of the pixel `(x, y)` is below `width * height`. -/
theorem pixel_index_lt (width height x y : Nat) (hx : x < width) (hy : y < height) :
    x + y * width < width * height := by
  calc x + y * width < width + y * width := by omega
    _ = (y + 1) * width := by ring
    _ ≤ height * width := Nat.mul_le_mul_right _ hy
    _ = width * height := Nat.mul_comm _ _

/-- With the index in range of the directions and of the buffer, the checked loop body
returns what the loop body computes. -/
theorem renderPixelChecked_eq (width y x : Nat) (buf : PixelBuffer)
    (hmat : ∀ s ∈ scene.Spheres, s.MaterialIndex < scene.Materials.length)
    (hd : (x + y * width) % 2 ^ 32 < camera.RayDirections.length)
    (hb : (x + y * width) % 2 ^ 32 < buf.data.length) :
    renderPixelChecked Real.sqrt scene camera width y x buf
      = some (renderPixel Real.sqrt scene camera width y x buf) := by
  unfold renderPixelChecked renderPixel pixelColor
  simp only [List.getElem?_eq_getElem hd, TraceRayChecked_eq scene _ hmat, if_pos hb,
    List.getD_eq_getElem?_getD, Option.getD_some]

/-- The checked inner loop returns what the inner loop computes. -/
theorem renderRowChecked_eq (width y n x : Nat) (buf : PixelBuffer)
    (hmat : ∀ s ∈ scene.Spheres, s.MaterialIndex < scene.Materials.length)
    (hx : x + n ≤ width) (hlen : y * width + width ≤ buf.data.length)
    (hdirs : buf.data.length ≤ camera.RayDirections.length) :
    renderRowChecked Real.sqrt scene camera width y n x buf
      = some (renderRow Real.sqrt scene camera width y n x buf) := by
  induction n generalizing x buf with
  | zero => rfl
  | succ n ih =>
    have hlt := buf.size_lt
    have hidx : (x + y * width) % 2 ^ 32 = x + y * width := Nat.mod_eq_of_lt (by omega)
    have hpix := renderPixelChecked_eq scene camera width y x buf hmat
      (by rw [hidx]; omega) (by rw [hidx]; omega)
    have hl : (renderPixel Real.sqrt scene camera width y x buf).data.length
        = buf.data.length := by
      simp only [renderPixel, PixelBuffer.write, List.length_set]
    rw [renderRowChecked, hpix]
    simp only
    rw [ih (x + 1) _ (by omega) (by rw [hl]; exact hlen) (by rw [hl]; exact hdirs), renderRow]

/-- The checked outer loop returns what the outer loop computes. -/
theorem renderRowsChecked_eq (width n y : Nat) (buf : PixelBuffer)
    (hmat : ∀ s ∈ scene.Spheres, s.MaterialIndex < scene.Materials.length)
    (hlen : (y + n) * width ≤ buf.data.length)
    (hdirs : buf.data.length ≤ camera.RayDirections.length) :
    renderRowsChecked Real.sqrt scene camera width n y buf
      = some (renderRows Real.sqrt scene camera width n y buf) := by
  induction n generalizing y buf with
  | zero => rfl
  | succ n ih =>
    have e1 : (y + (n + 1)) * width = y * width + width + n * width := by ring
    have e2 : (y + 1 + n) * width = y * width + width + n * width := by ring
    have hrow : y * width + width ≤ buf.data.length := by
      have := Nat.zero_le (n * width); omega
    have hl := renderRow_length scene camera width y width 0 buf
    rw [renderRowsChecked, renderRowChecked_eq scene camera width y width 0 buf hmat
      (by omega) hrow hdirs]
    simp only
    rw [ih (y + 1) _ (by rw [hl]; omega) (by rw [hl]; exact hdirs), renderRows]

end CheckedLemmas

/-! ## The alpha channel -/

section ShadeLemmas

/-- The colour of `TraceRay` has alpha 1 on the miss branch and on the hit branch. -/
theorem TraceRay_alpha (scene : Scene ℝ) (ray : Ray ℝ) :
    (TraceRay Real.sqrt scene ray).a = 1 := by
  unfold TraceRay
  by_cases h : (closestHit Real.sqrt scene ray).closestSphere < 0
  · simp only [h, if_true]
  · simp only [h, if_false, shadeHit]

/-- The pixel of every index is opaque: its highest byte is `0xFF`. -/
theorem pixelColor_alpha_byte (scene : Scene ℝ) (camera : Camera ℝ) (index : Nat) :
    pixelColor Real.sqrt scene camera index / 16777216 = 255
      ∧ 0xFF000000 ≤ pixelColor Real.sqrt scene camera index
      ∧ pixelColor Real.sqrt scene camera index < 2 ^ 32 := by
  unfold pixelColor
  simp only
  have ha := TraceRay_alpha scene
    ⟨camera.Position, camera.RayDirections.getD index ⟨0, 0, 0⟩⟩
  generalize TraceRay Real.sqrt scene
    ⟨camera.Position, camera.RayDirections.getD index ⟨0, 0, 0⟩⟩ = c at ha ⊢
  have hsum := ConvertToRGBA_eq_sum (clamp01 c) (clampScalar_mem _) (clampScalar_mem _)
    (clampScalar_mem _) (clampScalar_mem _)
  have fr := (floor_channel (clamp01 c).r (clampScalar_mem _).1 (clampScalar_mem _).2).1
  have fg := (floor_channel (clamp01 c).g (clampScalar_mem _).1 (clampScalar_mem _).2).1
  have fb := (floor_channel (clamp01 c).b (clampScalar_mem _).1 (clampScalar_mem _).2).1
  have hca : (clamp01 c).a = 1 := by
    show clampScalar c.a 0 1 = 1
    rw [ha]
    exact clampScalar_of_mem 1 zero_le_one le_rfl
  have fa : ⌊(clamp01 c).a * 255⌋₊ = 255 :=
    (floor_channel (clamp01 c).a (by rw [hca]; norm_num) (by rw [hca])).2.mpr hca
  rw [hsum, fa]
  refine ⟨?_, ?_, ?_⟩ <;> omega

/-- Every entry of the buffer after a row of `Render` is the earlier entry or the pixel
of some index. -/
theorem renderRow_getElem?_cases (scene : Scene ℝ) (camera : Camera ℝ)
    (width y n x : Nat) (buf : PixelBuffer) (j : Nat) :
    (renderRow Real.sqrt scene camera width y n x buf).data[j]? = buf.data[j]?
      ∨ ∃ index, (renderRow Real.sqrt scene camera width y n x buf).data[j]?
          = some (pixelColor Real.sqrt scene camera index) := by
  induction n generalizing x buf with
  | zero => left; rfl
  | succ n ih =>
    rw [renderRow]
    rcases ih (x + 1) (renderPixel Real.sqrt scene camera width y x buf) with h | h
    · rw [h]
      simp only [renderPixel, PixelBuffer.write]
      by_cases hij : (x + y * width) % 2 ^ 32 = j
      · by_cases hlen : j < buf.data.length
        · right
          refine ⟨(x + y * width) % 2 ^ 32, ?_⟩
          rw [hij, List.getElem?_set_self hlen]
        · left
          rw [hij, List.set_eq_of_length_le (not_lt.mp hlen)]
      · left
        rw [List.getElem?_set_ne hij]
    · right; exact h

/-- Every entry of the buffer after the rows of `Render` is the earlier entry or the pixel
of some index. -/
theorem renderRows_getElem?_cases (scene : Scene ℝ) (camera : Camera ℝ)
    (width n y : Nat) (buf : PixelBuffer) (j : Nat) :
    (renderRows Real.sqrt scene camera width n y buf).data[j]? = buf.data[j]?
      ∨ ∃ index, (renderRows Real.sqrt scene camera width n y buf).data[j]?
          = some (pixelColor Real.sqrt scene camera index) := by
  induction n generalizing y buf with
  | zero => left; rfl
  | succ n ih =>
    rw [renderRows]
    rcases ih (y + 1) (renderRow Real.sqrt scene camera width y width 0 buf) with h | h
    · rw [h]
      exact renderRow_getElem?_cases scene camera width y width 0 buf j
    · right; exact h

end ShadeLemmas

/-! ## The claims -/

/-- C1: when the image has dimensions `Width` and `Height` and both the buffer and the
camera's direction list have `Width * Height` entries, then after `Render` the buffer still
has `Width * Height` entries, every index `i < Width * Height` holds
`ConvertToRGBA (clamp01 (TraceRay (Ray (camera position, directions[i]))))` (so no index
keeps its old value), the indices `x + y * Width` with `x < Width`, `y < Height` are exactly
the indices below `Width * Height`, and the data published with `SetData` is this buffer. -/
theorem Render_fills_buffer (self : Renderer) (scene : Scene ℝ) (camera : Camera ℝ)
    (img : Image) (himg : self.m_FinalImage = some img)
    (hbuf : self.m_ImageData.data.length = img.Width * img.Height)
    (hdirs : camera.RayDirections.length = img.Width * img.Height) :
    (self.Render Real.sqrt scene camera).m_ImageData.data.length = img.Width * img.Height
      ∧ (∀ i, i < img.Width * img.Height →
          ∃ d, camera.RayDirections[i]? = some d
            ∧ (self.Render Real.sqrt scene camera).m_ImageData.data[i]?
              = some (ConvertToRGBA (clamp01 (TraceRay Real.sqrt scene ⟨camera.Position, d⟩))))
      ∧ (∀ x y, x < img.Width → y < img.Height → x + y * img.Width < img.Width * img.Height)
      ∧ (∀ i, i < img.Width * img.Height →
          ∃ x y, x < img.Width ∧ y < img.Height ∧ i = x + y * img.Width)
      ∧ (self.Render Real.sqrt scene camera).m_FinalImage
          = some ⟨img.Width, img.Height, (self.Render Real.sqrt scene camera).m_ImageData.data⟩ := by
  have hlen := Render_length scene camera self
  refine ⟨by rw [hlen, hbuf], ?_, ?_, ?_, ?_⟩
  · intro i hi
    have hd : i < camera.RayDirections.length := by rw [hdirs]; exact hi
    refine ⟨camera.RayDirections[i], List.getElem?_eq_getElem hd, ?_⟩
    rw [Render_of_image scene camera self img himg]
    show (renderRows Real.sqrt scene camera img.Width img.Height 0 self.m_ImageData).data[i]? = _
    rw [renderRows_getElem? scene camera img.Width img.Height 0 self.m_ImageData
      (by rw [hbuf, Nat.zero_add, Nat.mul_comm]) i,
      if_pos ⟨by omega, by rw [Nat.zero_add, Nat.mul_comm]; exact hi⟩]
    simp only [pixelColor, List.getD_eq_getElem?_getD, List.getElem?_eq_getElem hd,
      Option.getD_some]
  · intro x y hx hy
    calc x + y * img.Width < img.Width + y * img.Width := by omega
      _ = (y + 1) * img.Width := by ring
      _ ≤ img.Height * img.Width := Nat.mul_le_mul_right _ hy
      _ = img.Width * img.Height := Nat.mul_comm _ _
  · intro i hi
    have hW : 0 < img.Width := by
      rcases Nat.eq_zero_or_pos img.Width with h | h
      · rw [h, Nat.zero_mul] at hi; omega
      · exact h
    refine ⟨i % img.Width, i / img.Width, Nat.mod_lt _ hW, ?_, ?_⟩
    · exact (Nat.div_lt_iff_lt_mul hW).mpr (by rw [Nat.mul_comm]; exact hi)
    · rw [Nat.mul_comm]; exact (Nat.mod_add_div i img.Width).symm
  · rw [Render_of_image scene camera self img himg]
    show some (img.SetData _) = some _
    unfold Image.SetData
    rw [List.take_of_length_le (by rw [renderRows_length, hbuf])]

/-- Witness for C1: a 2 x 1 image rendered over the empty scene. -/
theorem Render_fills_buffer_witness :
    (Renderer.Render Real.sqrt (Renderer.init.OnResize 2 1) (⟨[], []⟩ : Scene ℝ)
        (⟨⟨0, 0, 3⟩, [⟨0, 0, -1⟩, ⟨5, 5, -1⟩]⟩ : Camera ℝ)).m_ImageData.data.length
      = 2 * 1 :=
  (Render_fills_buffer (Renderer.init.OnResize 2 1) ⟨[], []⟩
    ⟨⟨0, 0, 3⟩, [⟨0, 0, -1⟩, ⟨5, 5, -1⟩]⟩ ⟨2, 1, []⟩ rfl rfl rfl).1

/-- C2: call a sphere a candidate when its discriminant `b * b - 4 * a * c` is `>= 0` and
its near root `t = (-b - sqrt(discriminant)) / (2 * a)` satisfies `0 < t < FLT_MAX`
(`specCandidate`, written with the formulas of the spec, evaluated in `F`). In every
arithmetic `F` whose comparison `<` is transitive and compares any two values above 0,
where `x >= 0` excludes `x < 0`, and where a quotient `(y - sqrt x) / z` above 0 with
`x < 0` false has `x >= 0` (a NaN discriminant gives a NaN root; all four hold for the
reals and for IEEE 754 values): if the scene has a candidate, the loop of `TraceRay`
records the index `k` and the near root of a candidate `s`, `TraceRay` returns the shading
of `s` at that distance, no candidate has a smaller near root, and every candidate of lower
index has a strictly larger near root: among the candidates of smallest `t` the lowest
index is selected. -/
theorem TraceRay_nearest_hit {F : Type} [Add F] [Sub F] [Mul F] [Div F] [Neg F] [OfNat F 0]
    [OfNat F 1] [OfNat F 2] [OfNat F 4] [Max F] [Pow F ℕ] [LT F] [LE F]
    [DecidableRel ((· < ·) : F → F → Prop)] (sqrt : F → F)
    (htrans : ∀ x y z : F, x < y → y < z → x < z)
    (htri : ∀ x y : F, 0 < x → 0 < y → x < y ∨ x = y ∨ y < x)
    (hge : ∀ x : F, x ≥ 0 → ¬ x < 0)
    (hnan : ∀ x y z : F, ¬ x < 0 → 0 < (y - sqrt x) / z → x ≥ 0)
    (scene : Scene F) (ray : Ray F)
    (hex : ∃ (j : Nat) (u : Sphere F), scene.Spheres[j]? = some u
      ∧ specCandidate sqrt ray.Origin ray.Direction u) :
    ∃ (k : Nat) (s : Sphere F), scene.Spheres[k]? = some s
      ∧ specCandidate sqrt ray.Origin ray.Direction s
      ∧ closestHit sqrt scene ray
          = ⟨(k : Int), specNearRoot sqrt ray.Origin ray.Direction s⟩
      ∧ TraceRay sqrt scene ray
          = shadeHit sqrt scene ray.Origin ray.Direction s
              (specNearRoot sqrt ray.Origin ray.Direction s)
      ∧ (∀ (j : Nat) (u : Sphere F), scene.Spheres[j]? = some u →
          specCandidate sqrt ray.Origin ray.Direction u →
          specNearRoot sqrt ray.Origin ray.Direction s
              < specNearRoot sqrt ray.Origin ray.Direction u
            ∨ specNearRoot sqrt ray.Origin ray.Direction s
              = specNearRoot sqrt ray.Origin ray.Direction u)
      ∧ (∀ (j : Nat) (u : Sphere F), j < k → scene.Spheres[j]? = some u →
          specCandidate sqrt ray.Origin ray.Direction u →
          specNearRoot sqrt ray.Origin ray.Direction s
            < specNearRoot sqrt ray.Origin ray.Direction u) := by
  have hD : ∀ u : Sphere F, specDiscriminant ray.Origin ray.Direction u
      = discriminant ray.Origin ray.Direction u :=
    fun u => (spec_formulas_eq sqrt ray.Origin ray.Direction u).1
  have hT : ∀ u : Sphere F, specNearRoot sqrt ray.Origin ray.Direction u
      = closestT sqrt ray.Origin ray.Direction u :=
    fun u => (spec_formulas_eq sqrt ray.Origin ray.Direction u).2
  have hpass : ∀ u : Sphere F, specCandidate sqrt ray.Origin ray.Direction u →
      ¬ discriminant ray.Origin ray.Direction u < 0
        ∧ 0 < closestT sqrt ray.Origin ray.Direction u
        ∧ closestT sqrt ray.Origin ray.Direction u < FLT_MAX := by
    intro u hu
    unfold specCandidate at hu
    rw [hD u, hT u] at hu
    exact ⟨hge _ hu.1, hu.2.1, hu.2.2⟩
  rcases traceLoop_select sqrt htrans htri ray.Origin ray.Direction scene.Spheres 0
      ⟨-1, FLT_MAX⟩ with ⟨hnone, _⟩ | ⟨k, s, hk, heq, hsD, hs0, hs1, hmin, hfirst⟩
  · obtain ⟨j, u, hj, hu⟩ := hex
    exact absurd (hpass u hu) (hnone u (List.getElem?_mem hj))
  · have hloop : closestHit sqrt scene ray
        = ⟨(k : Int), specNearRoot sqrt ray.Origin ray.Direction s⟩ := by
      unfold closestHit
      rw [heq, Nat.zero_add, hT s]
    have hcand : specCandidate sqrt ray.Origin ray.Direction s := by
      unfold specCandidate
      rw [hD s, hT s]
      refine ⟨?_, hs0, hs1⟩
      have h0 := hs0
      unfold closestT at h0
      exact hnan _ _ _ hsD h0
    refine ⟨k, s, hk, hcand, hloop, ?_, ?_, ?_⟩
    · unfold TraceRay
      simp only [hloop]
      rw [if_neg (by omega)]
      simp only [Int.toNat_ofNat, List.getD_eq_getElem?_getD, hk, Option.getD_some]
    · intro j u hj hu
      obtain ⟨huD, hu0, hu1⟩ := hpass u hu
      rw [hT s, hT u]
      exact hmin j u hj huD hu0 hu1
    · intro j u hjk hj hu
      obtain ⟨huD, hu0, hu1⟩ := hpass u hu
      rw [hT s, hT u]
      exact hfirst j u hjk hj huD hu0 hu1

/-- Witness for C2: over the reals two unit spheres at the origin are hit at the same
distance 2, and the loop records the one of index 0. -/
theorem TraceRay_nearest_hit_witness :
    (closestHit Real.sqrt
      (⟨[⟨⟨0, 0, 0⟩, 1, 0⟩, ⟨⟨0, 0, 0⟩, 1, 1⟩], [⟨⟨1, 0, 0⟩⟩, ⟨⟨0, 1, 0⟩⟩]⟩ : Scene ℝ)
      ⟨⟨0, 0, 3⟩, ⟨0, 0, -1⟩⟩).closestSphere = 0 := by
  have hc : ∀ m : Nat, specCandidate Real.sqrt (⟨0, 0, 3⟩ : Vec3 ℝ) ⟨0, 0, -1⟩
      ⟨⟨0, 0, 0⟩, 1, m⟩ := by
    intro m
    unfold specCandidate
    rw [(spec_formulas_eq Real.sqrt _ _ _).1, (spec_formulas_eq Real.sqrt _ _ _).2,
      (unit_sphere_near_root m).1, (unit_sphere_near_root m).2]
    exact ⟨by norm_num, by norm_num, two_lt_FLT_MAX⟩
  obtain ⟨k, s, hk, _, hloop, _, _, hfirst⟩ := TraceRay_nearest_hit Real.sqrt
    (fun _ _ _ => lt_trans) (fun x y _ _ => lt_trichotomy x y)
    (fun _ h => not_lt.mpr h) (fun _ _ _ h _ => not_lt.mp h)
    (⟨[⟨⟨0, 0, 0⟩, 1, 0⟩, ⟨⟨0, 0, 0⟩, 1, 1⟩], [⟨⟨1, 0, 0⟩⟩, ⟨⟨0, 1, 0⟩⟩]⟩ : Scene ℝ)
    ⟨⟨0, 0, 3⟩, ⟨0, 0, -1⟩⟩ ⟨0, ⟨⟨0, 0, 0⟩, 1, 0⟩, rfl, hc 0⟩
  have hs : specNearRoot Real.sqrt (⟨0, 0, 3⟩ : Vec3 ℝ) ⟨0, 0, -1⟩ s = 2 := by
    have hmem := List.getElem?_mem hk
    simp only [List.mem_cons, List.mem_singleton, List.not_mem_nil, or_false] at hmem
    rcases hmem with h | h
    · rw [h, (spec_formulas_eq Real.sqrt _ _ _).2]; exact (unit_sphere_near_root 0).2
    · rw [h, (spec_formulas_eq Real.sqrt _ _ _).2]; exact (unit_sphere_near_root 1).2
  have hk0 : k = 0 := by
    by_contra hne
    have h := hfirst 0 ⟨⟨0, 0, 0⟩, 1, 0⟩ (Nat.pos_of_ne_zero hne) rfl (hc 0)
    simp only at h
    rw [hs, (spec_formulas_eq Real.sqrt _ _ _).2, (unit_sphere_near_root 0).2] at h
    exact lt_irrefl _ h
  rw [hloop, hk0]
  rfl

/-- C5: for a colour with every channel in `[0, 1]`, `ConvertToRGBA` returns
`R + 256 * G + 65536 * B + 16777216 * A` with each byte the floor of `channel * 255`; each
byte is at most 255 and equals 255 only when the channel is exactly 1; red is the lowest
byte, then green, then blue, and alpha is the highest byte; the result is below `2 ^ 32`. -/
theorem ConvertToRGBA_layout (color : Vec4 ℝ) (hr : 0 ≤ color.r ∧ color.r ≤ 1)
    (hg : 0 ≤ color.g ∧ color.g ≤ 1) (hb : 0 ≤ color.b ∧ color.b ≤ 1)
    (ha : 0 ≤ color.a ∧ color.a ≤ 1) :
    ConvertToRGBA color = ⌊color.r * 255⌋₊ + 256 * ⌊color.g * 255⌋₊
        + 65536 * ⌊color.b * 255⌋₊ + 16777216 * ⌊color.a * 255⌋₊
      ∧ (⌊color.r * 255⌋₊ ≤ 255 ∧ ⌊color.g * 255⌋₊ ≤ 255 ∧ ⌊color.b * 255⌋₊ ≤ 255
          ∧ ⌊color.a * 255⌋₊ ≤ 255)
      ∧ ((⌊color.r * 255⌋₊ = 255 ↔ color.r = 1) ∧ (⌊color.g * 255⌋₊ = 255 ↔ color.g = 1)
          ∧ (⌊color.b * 255⌋₊ = 255 ↔ color.b = 1) ∧ (⌊color.a * 255⌋₊ = 255 ↔ color.a = 1))
      ∧ (ConvertToRGBA color % 256 = ⌊color.r * 255⌋₊
          ∧ ConvertToRGBA color / 256 % 256 = ⌊color.g * 255⌋₊
          ∧ ConvertToRGBA color / 65536 % 256 = ⌊color.b * 255⌋₊
          ∧ ConvertToRGBA color / 16777216 = ⌊color.a * 255⌋₊)
      ∧ ConvertToRGBA color < 2 ^ 32 := by
  have h := ConvertToRGBA_eq_sum color hr hg hb ha
  have fr := floor_channel color.r hr.1 hr.2
  have fg := floor_channel color.g hg.1 hg.2
  have fb := floor_channel color.b hb.1 hb.2
  have fa := floor_channel color.a ha.1 ha.2
  refine ⟨h, ⟨fr.1, fg.1, fb.1, fa.1⟩, ⟨fr.2, fg.2, fb.2, fa.2⟩, ?_, ?_⟩
  · rw [h]
    have h1 := fr.1
    have h2 := fg.1
    have h3 := fb.1
    have h4 := fa.1
    refine ⟨?_, ?_, ?_, ?_⟩ <;> omega
  · rw [h]
    have h1 := fr.1
    have h2 := fg.1
    have h3 := fb.1
    have h4 := fa.1
    omega

/-- Witness for C5 at the colour `(1/2, 0, 1, 1)`, whose packed value is `0xFFFF007F`. -/
theorem ConvertToRGBA_layout_witness :
    ConvertToRGBA (⟨1 / 2, 0, 1, 1⟩ : Vec4 ℝ) % 256 = ⌊(1 / 2 : ℝ) * 255⌋₊
      ∧ ConvertToRGBA (⟨1 / 2, 0, 1, 1⟩ : Vec4 ℝ) < 2 ^ 32 :=
  have h := ConvertToRGBA_layout (⟨1 / 2, 0, 1, 1⟩ : Vec4 ℝ) (by norm_num) (by norm_num)
    (by norm_num) (by norm_num)
  ⟨h.2.2.2.1.1, h.2.2.2.2⟩

/-- C6, as stated, fails: the packed value of `(1,0,0,1)` does not have all three bytes
above the lowest equal to `0x00`, because its alpha byte is `0xFF`. -/
theorem ConvertToRGBA_red_other_bytes_not_zero :
    ¬ (ConvertToRGBA (⟨1, 0, 0, 1⟩ : Vec4 ℝ) % 256 = 0xFF
        ∧ ConvertToRGBA (⟨1, 0, 0, 1⟩ : Vec4 ℝ) / 256 % 256 = 0x00
        ∧ ConvertToRGBA (⟨1, 0, 0, 1⟩ : Vec4 ℝ) / 65536 % 256 = 0x00
        ∧ ConvertToRGBA (⟨1, 0, 0, 1⟩ : Vec4 ℝ) / 16777216 % 256 = 0x00) := by
  rw [ConvertToRGBA_basis.1]
  decide

/-- C6, amended: the packed value of `(1,0,0,1)` has lowest byte `0xFF`, green and blue
bytes `0x00` and alpha byte `0xFF`; that of `(0,1,0,1)` has second-lowest byte `0xFF`; that
of `(0,0,1,1)` has third byte `0xFF`; that of `(0,0,0,1)` has alpha byte `0xFF` and the
three other bytes `0x00`. -/
theorem ConvertToRGBA_examples :
    (ConvertToRGBA (⟨1, 0, 0, 1⟩ : Vec4 ℝ) % 256 = 0xFF
        ∧ ConvertToRGBA (⟨1, 0, 0, 1⟩ : Vec4 ℝ) / 256 % 256 = 0x00
        ∧ ConvertToRGBA (⟨1, 0, 0, 1⟩ : Vec4 ℝ) / 65536 % 256 = 0x00
        ∧ ConvertToRGBA (⟨1, 0, 0, 1⟩ : Vec4 ℝ) / 16777216 % 256 = 0xFF)
      ∧ ConvertToRGBA (⟨0, 1, 0, 1⟩ : Vec4 ℝ) / 256 % 256 = 0xFF
      ∧ ConvertToRGBA (⟨0, 0, 1, 1⟩ : Vec4 ℝ) / 65536 % 256 = 0xFF
      ∧ (ConvertToRGBA (⟨0, 0, 0, 1⟩ : Vec4 ℝ) / 16777216 % 256 = 0xFF
        ∧ ConvertToRGBA (⟨0, 0, 0, 1⟩ : Vec4 ℝ) % 256 = 0x00
        ∧ ConvertToRGBA (⟨0, 0, 0, 1⟩ : Vec4 ℝ) / 256 % 256 = 0x00
        ∧ ConvertToRGBA (⟨0, 0, 0, 1⟩ : Vec4 ℝ) / 65536 % 256 = 0x00) := by
  obtain ⟨h1, h2, h3, h4⟩ := ConvertToRGBA_basis
  rw [h1, h2, h3, h4]
  decide

/-- C7: the pixel `Render` stores for a traced colour `c` is `ConvertToRGBA (clamp01 c)`.
For every colour `c` this pixel equals the pixel of the channel-wise clamp of `c`, and its
four bytes are the floors of `255 * min (max channel 0) 1`; the pixel for
`(1.5, -0.2, 0.5, 1)` equals the pixel for `(1.0, 0.0, 0.5, 1)`, which is `0xFF7F00FF`.
The value `pixelColor` that `Render` computes for an index is this pixel of the colour
`TraceRay` returns for the ray of that index; when the image and the buffer have
`Width * Height` entries, every entry `i < Width * Height` of the buffer after `Render` is
this pixel of the colour traced along `directions[i]`, with these four bytes; and `Render`
over a 1 x 1 image of the unit sphere with albedo `(3, -1, 1)`, whose traced colour
`(3 / sqrt 3, -(1 / sqrt 3), 1 / sqrt 3, 1)` has a channel above 1 and a channel below 0,
stores the pixel `0xFF9300FF` of the clamped colour. -/
theorem clamp_before_pack :
    (∀ c : Vec4 ℝ,
        ConvertToRGBA (clamp01 c) = ConvertToRGBA (clamp01 (clamp01 c))
        ∧ ConvertToRGBA (clamp01 c) % 256 = ⌊255 * min (max c.r 0) 1⌋₊
        ∧ ConvertToRGBA (clamp01 c) / 256 % 256 = ⌊255 * min (max c.g 0) 1⌋₊
        ∧ ConvertToRGBA (clamp01 c) / 65536 % 256 = ⌊255 * min (max c.b 0) 1⌋₊
        ∧ ConvertToRGBA (clamp01 c) / 16777216 % 256 = ⌊255 * min (max c.a 0) 1⌋₊)
      ∧ ConvertToRGBA (clamp01 (⟨1.5, -0.2, 0.5, 1⟩ : Vec4 ℝ))
          = ConvertToRGBA (clamp01 (⟨1.0, 0.0, 0.5, 1⟩ : Vec4 ℝ))
      ∧ ConvertToRGBA (clamp01 (⟨1.5, -0.2, 0.5, 1⟩ : Vec4 ℝ)) = 0xFF7F00FF
      ∧ (∀ (scene : Scene ℝ) (camera : Camera ℝ) (index : Nat),
          pixelColor Real.sqrt scene camera index
            = ConvertToRGBA (clamp01 (TraceRay Real.sqrt scene
                ⟨camera.Position, camera.RayDirections.getD index ⟨0, 0, 0⟩⟩))
          ∧ pixelColor Real.sqrt scene camera index
            = ConvertToRGBA (clamp01 (clamp01 (TraceRay Real.sqrt scene
                ⟨camera.Position, camera.RayDirections.getD index ⟨0, 0, 0⟩⟩)))
          ∧ pixelColor Real.sqrt scene camera index % 256
            = ⌊255 * min (max (TraceRay Real.sqrt scene
                ⟨camera.Position, camera.RayDirections.getD index ⟨0, 0, 0⟩⟩).r 0) 1⌋₊
          ∧ pixelColor Real.sqrt scene camera index / 256 % 256
            = ⌊255 * min (max (TraceRay Real.sqrt scene
                ⟨camera.Position, camera.RayDirections.getD index ⟨0, 0, 0⟩⟩).g 0) 1⌋₊
          ∧ pixelColor Real.sqrt scene camera index / 65536 % 256
            = ⌊255 * min (max (TraceRay Real.sqrt scene
                ⟨camera.Position, camera.RayDirections.getD index ⟨0, 0, 0⟩⟩).b 0) 1⌋₊
          ∧ pixelColor Real.sqrt scene camera index / 16777216 % 256
            = ⌊255 * min (max (TraceRay Real.sqrt scene
                ⟨camera.Position, camera.RayDirections.getD index ⟨0, 0, 0⟩⟩).a 0) 1⌋₊)
      ∧ (∀ (self : Renderer) (scene : Scene ℝ) (camera : Camera ℝ) (img : Image),
          self.m_FinalImage = some img →
          self.m_ImageData.data.length = img.Width * img.Height →
          camera.RayDirections.length = img.Width * img.Height →
          ∀ i, i < img.Width * img.Height →
            ∃ (d : Vec3 ℝ) (v : Nat), camera.RayDirections[i]? = some d
              ∧ (self.Render Real.sqrt scene camera).m_ImageData.data[i]? = some v
              ∧ v = ConvertToRGBA (clamp01 (TraceRay Real.sqrt scene ⟨camera.Position, d⟩))
              ∧ v = ConvertToRGBA
                  (clamp01 (clamp01 (TraceRay Real.sqrt scene ⟨camera.Position, d⟩)))
              ∧ v % 256
                = ⌊255 * min (max (TraceRay Real.sqrt scene ⟨camera.Position, d⟩).r 0) 1⌋₊
              ∧ v / 256 % 256
                = ⌊255 * min (max (TraceRay Real.sqrt scene ⟨camera.Position, d⟩).g 0) 1⌋₊
              ∧ v / 65536 % 256
                = ⌊255 * min (max (TraceRay Real.sqrt scene ⟨camera.Position, d⟩).b 0) 1⌋₊
              ∧ v / 16777216 % 256
                = ⌊255 * min (max (TraceRay Real.sqrt scene ⟨camera.Position, d⟩).a 0) 1⌋₊)
      ∧ TraceRay Real.sqrt (⟨[⟨⟨0, 0, 0⟩, 1, 0⟩], [⟨⟨3, -1, 1⟩⟩]⟩ : Scene ℝ)
          ⟨⟨0, 0, 3⟩, ⟨0, 0, -1⟩⟩
          = ⟨3 / Real.sqrt 3, -(1 / Real.sqrt 3), 1 / Real.sqrt 3, 1⟩
      ∧ (1 < 3 / Real.sqrt 3 ∧ -(1 / Real.sqrt 3) < 0)
      ∧ (Renderer.Render Real.sqrt (Renderer.init.OnResize 1 1)
          (⟨[⟨⟨0, 0, 0⟩, 1, 0⟩], [⟨⟨3, -1, 1⟩⟩]⟩ : Scene ℝ)
          (⟨⟨0, 0, 3⟩, [⟨0, 0, -1⟩]⟩ : Camera ℝ)).m_ImageData.data = [0xFF9300FF] := by
  have general : ∀ c : Vec4 ℝ,
      ConvertToRGBA (clamp01 c) = ⌊255 * min (max c.r 0) 1⌋₊
        + 256 * ⌊255 * min (max c.g 0) 1⌋₊ + 65536 * ⌊255 * min (max c.b 0) 1⌋₊
        + 16777216 * ⌊255 * min (max c.a 0) 1⌋₊ := by
    intro c
    rw [ConvertToRGBA_eq_sum (clamp01 c) (clampScalar_mem _) (clampScalar_mem _)
      (clampScalar_mem _) (clampScalar_mem _)]
    simp only [clamp01, clampScalar, mul_comm]
  have byte : ∀ x : ℝ, ⌊255 * min (max x 0) 1⌋₊ ≤ 255 := by
    intro x
    have h := (floor_channel (clampScalar x 0 1) (clampScalar_mem x).1 (clampScalar_mem x).2).1
    simpa only [clampScalar, mul_comm] using h
  have idem : ∀ c : Vec4 ℝ, clamp01 (clamp01 c) = clamp01 c := by
    intro c
    simp only [clamp01, clampScalar_of_mem _ (clampScalar_mem _).1 (clampScalar_mem _).2]
  have bytes : ∀ c : Vec4 ℝ,
      ConvertToRGBA (clamp01 c) = ConvertToRGBA (clamp01 (clamp01 c))
        ∧ ConvertToRGBA (clamp01 c) % 256 = ⌊255 * min (max c.r 0) 1⌋₊
        ∧ ConvertToRGBA (clamp01 c) / 256 % 256 = ⌊255 * min (max c.g 0) 1⌋₊
        ∧ ConvertToRGBA (clamp01 c) / 65536 % 256 = ⌊255 * min (max c.b 0) 1⌋₊
        ∧ ConvertToRGBA (clamp01 c) / 16777216 % 256 = ⌊255 * min (max c.a 0) 1⌋₊ := by
    intro c
    refine ⟨by rw [idem], ?_⟩
    rw [general c]
    have h1 := byte c.r
    have h2 := byte c.g
    have h3 := byte c.b
    have h4 := byte c.a
    refine ⟨?_, ?_, ?_, ?_⟩ <;> omega
  have hr : min (max (1.5 : ℝ) 0) 1 = 1 := by norm_num
  have hg : min (max (-0.2 : ℝ) 0) 1 = 0 := by norm_num
  have hb : min (max (0.5 : ℝ) 0) 1 = 0.5 := by norm_num
  have ha : min (max (1 : ℝ) 0) 1 = 1 := by norm_num
  have hr' : min (max (1.0 : ℝ) 0) 1 = 1 := by norm_num
  have hg' : min (max (0.0 : ℝ) 0) 1 = 0 := by norm_num
  have f1 : ⌊(255 : ℝ) * 1⌋₊ = 255 := by
    rw [Nat.floor_eq_iff (by norm_num)]; norm_num
  have f0 : ⌊(255 : ℝ) * 0⌋₊ = 0 := by simp
  have fh : ⌊(255 : ℝ) * 0.5⌋₊ = 127 := by
    rw [Nat.floor_eq_iff (by norm_num)]; norm_num
  have hsqrt := sqrt_three_bounds
  refine ⟨bytes, ?_, ?_, ?_, ?_, bright_sphere_color, ⟨?_, ?_⟩, ?_⟩
  · rw [general, general]
    simp only [hr, hg, hb, ha, hr', hg']
  · rw [general]
    simp only [hr, hg, hb, ha, f1, f0, fh]
  · intro scene camera index
    have hp : pixelColor Real.sqrt scene camera index
        = ConvertToRGBA (clamp01 (TraceRay Real.sqrt scene
            ⟨camera.Position, camera.RayDirections.getD index ⟨0, 0, 0⟩⟩)) := rfl
    rw [hp]
    exact ⟨rfl, bytes _⟩
  · intro self scene camera img himg hbuf hdirs i hi
    have hd : i < camera.RayDirections.length := by rw [hdirs]; exact hi
    refine ⟨camera.RayDirections[i],
      ConvertToRGBA (clamp01 (TraceRay Real.sqrt scene
        ⟨camera.Position, camera.RayDirections[i]⟩)),
      List.getElem?_eq_getElem hd, ?_, rfl, bytes _⟩
    rw [Render_of_image scene camera self img himg]
    show (renderRows Real.sqrt scene camera img.Width img.Height 0 self.m_ImageData).data[i]? = _
    rw [renderRows_getElem? scene camera img.Width img.Height 0 self.m_ImageData
      (by rw [hbuf, Nat.zero_add, Nat.mul_comm]) i,
      if_pos ⟨by omega, by rw [Nat.zero_add, Nat.mul_comm]; exact hi⟩]
    simp only [pixelColor, List.getD_eq_getElem?_getD, List.getElem?_eq_getElem hd,
      Option.getD_some]
  · rw [lt_div_iff₀ (by linarith [hsqrt.1])]
    linarith [hsqrt.2]
  · have hpos : (0 : ℝ) < 1 / Real.sqrt 3 := by
      have : (0 : ℝ) < Real.sqrt 3 := by linarith [hsqrt.1]
      positivity
    linarith
  · have hpix : ConvertToRGBA (clamp01 (TraceRay Real.sqrt
        (⟨[⟨⟨0, 0, 0⟩, 1, 0⟩], [⟨⟨3, -1, 1⟩⟩]⟩ : Scene ℝ) ⟨⟨0, 0, 3⟩, ⟨0, 0, -1⟩⟩))
        = 0xFF9300FF := by
      rw [bright_sphere_color]; exact bright_sphere_pixel
    simp [Renderer.Render, Renderer.OnResize, Renderer.init, Renderer.reallocate,
      PixelBuffer.alloc, renderRows, renderRow, renderPixel, PixelBuffer.write,
      Image.GetWidth, Image.GetHeight, pixelColor]
    exact hpix

/-- C8: when the image already exists with dimensions `(width, height)`,
`OnResize width height` returns the state unchanged: the same image, the same buffer, no
further allocation; and from any state a second `OnResize width height` gives the same
state as the first one alone. -/
theorem OnResize_same_dimensions (self : Renderer) (img : Image) (width height : Nat)
    (himg : self.m_FinalImage = some img) (hw : img.GetWidth = width)
    (hh : img.GetHeight = height) :
    self.OnResize width height = self
      ∧ (self.OnResize width height).m_FinalImage = some img
      ∧ (self.OnResize width height).m_ImageData = self.m_ImageData
      ∧ (self.OnResize width height).allocations = self.allocations
      ∧ ∀ st : Renderer,
          (st.OnResize width height).OnResize width height = st.OnResize width height := by
  have h := OnResize_of_same self img width height himg hw hh
  refine ⟨h, by rw [h, himg], by rw [h], by rw [h], ?_⟩
  intro st
  obtain ⟨im, h1, h2, h3⟩ := OnResize_image st width height
  exact OnResize_of_same _ im width height h1 h2 h3

/-- Witness for C8: a renderer resized to 2 x 3 is resized to 2 x 3 again. -/
theorem OnResize_same_dimensions_witness :
    (Renderer.init.OnResize 2 3).OnResize 2 3 = Renderer.init.OnResize 2 3 :=
  (OnResize_same_dimensions (Renderer.init.OnResize 2 3) ⟨2, 3, []⟩ 2 3 rfl rfl rfl).1

/-- C9, as stated, fails: `OnResize 65536 65536` on a new renderer sets the dimensions to
`(65536, 65536)` but allocates no slot at all, because the `uint32_t` product wraps
to 0. -/
theorem OnResize_length_overflow :
    (Renderer.init.OnResize 65536 65536).m_FinalImage = some ⟨65536, 65536, []⟩
      ∧ (Renderer.init.OnResize 65536 65536).m_ImageData.data.length = 0
      ∧ (Renderer.init.OnResize 65536 65536).m_ImageData.data.length ≠ 65536 * 65536 := by
  refine ⟨rfl, ?_, ?_⟩
  · simp [Renderer.OnResize, Renderer.init, Renderer.reallocate, PixelBuffer.alloc]
  · simp [Renderer.OnResize, Renderer.init, Renderer.reallocate, PixelBuffer.alloc]

/-- C9, amended: after `OnResize width height` from any reachable state (no image yet, the
same dimensions, or different dimensions) the image dimensions are `(width, height)` and
the buffer has `(width * height) mod 2 ^ 32` slots, which is exactly `width * height`
whenever that product is below `2 ^ 32`. -/
theorem OnResize_buffer_length (self : Renderer) (width height : Nat)
    (hreach : self.Reachable) :
    (∃ img : Image, (self.OnResize width height).m_FinalImage = some img
        ∧ img.GetWidth = width ∧ img.GetHeight = height)
      ∧ (self.OnResize width height).m_ImageData.data.length = (width * height) % 2 ^ 32
      ∧ (width * height < 2 ^ 32 →
          (self.OnResize width height).m_ImageData.data.length = width * height) := by
  have hlen := OnResize_length self width height (Reachable_consistent self hreach)
  refine ⟨OnResize_image self width height, hlen, ?_⟩
  intro hlt
  rw [hlen, Nat.mod_eq_of_lt hlt]

/-- Witness for C9: a renderer holding a 2 x 3 image is resized to 4 x 5. -/
theorem OnResize_buffer_length_witness :
    ((Renderer.init.OnResize 2 3).OnResize 4 5).m_ImageData.data.length = (4 * 5) % 2 ^ 32 :=
  (OnResize_buffer_length (Renderer.init.OnResize 2 3) 4 5
    (Renderer.Reachable.onResize _ 2 3 Renderer.Reachable.init (by norm_num) (by norm_num))).2.1

/-- C10: in the scene of one sphere at `(0,0,0)` of radius 1 with albedo `(1,0,0)`, seen
from `(0,0,3)`: along `(0,0,-1)` the loop records sphere 0 at `t = 2`, the normal is
`(0,0,1)`, `TraceRay` returns `(1/sqrt 3, 0, 0, 1)` and the stored pixel is `0xFF000093`,
which is not the background pixel and has a non-zero red byte and zero green and blue
bytes; along `(5,5,-1)` the discriminant is negative and the stored pixel is the background
pixel `0xFF000000`; `Render` over a 2 x 1 image with these two directions stores exactly
these two pixels. -/
theorem full_scene_scenario :
    closestHit Real.sqrt (⟨[⟨⟨0, 0, 0⟩, 1, 0⟩], [⟨⟨1, 0, 0⟩⟩]⟩ : Scene ℝ)
        ⟨⟨0, 0, 3⟩, ⟨0, 0, -1⟩⟩ = ⟨0, 2⟩
      ∧ normalize Real.sqrt
          (((⟨0, 0, 3⟩ : Vec3 ℝ).sub ⟨0, 0, 0⟩).add ((⟨0, 0, -1⟩ : Vec3 ℝ).scale 2))
          = ⟨0, 0, 1⟩
      ∧ TraceRay Real.sqrt (⟨[⟨⟨0, 0, 0⟩, 1, 0⟩], [⟨⟨1, 0, 0⟩⟩]⟩ : Scene ℝ)
          ⟨⟨0, 0, 3⟩, ⟨0, 0, -1⟩⟩ = ⟨1 / Real.sqrt 3, 0, 0, 1⟩
      ∧ ConvertToRGBA (clamp01 (TraceRay Real.sqrt
          (⟨[⟨⟨0, 0, 0⟩, 1, 0⟩], [⟨⟨1, 0, 0⟩⟩]⟩ : Scene ℝ) ⟨⟨0, 0, 3⟩, ⟨0, 0, -1⟩⟩))
          = 0xFF000093
      ∧ (0xFF000093 ≠ 0xFF000000 ∧ 0xFF000093 % 256 ≠ 0 ∧ 0xFF000093 / 256 % 256 = 0
          ∧ 0xFF000093 / 65536 % 256 = 0)
      ∧ discriminant (⟨0, 0, 3⟩ : Vec3 ℝ) ⟨5, 5, -1⟩ ⟨⟨0, 0, 0⟩, 1, 0⟩ < 0
      ∧ ConvertToRGBA (clamp01 (TraceRay Real.sqrt
          (⟨[⟨⟨0, 0, 0⟩, 1, 0⟩], [⟨⟨1, 0, 0⟩⟩]⟩ : Scene ℝ) ⟨⟨0, 0, 3⟩, ⟨5, 5, -1⟩⟩))
          = 0xFF000000
      ∧ (Renderer.Render Real.sqrt (Renderer.init.OnResize 2 1)
          (⟨[⟨⟨0, 0, 0⟩, 1, 0⟩], [⟨⟨1, 0, 0⟩⟩]⟩ : Scene ℝ)
          (⟨⟨0, 0, 3⟩, [⟨0, 0, -1⟩, ⟨5, 5, -1⟩]⟩ : Camera ℝ)).m_ImageData.data
          = [0xFF000093, 0xFF000000] := by
  have hred : ConvertToRGBA (clamp01 (TraceRay Real.sqrt
      (⟨[⟨⟨0, 0, 0⟩, 1, 0⟩], [⟨⟨1, 0, 0⟩⟩]⟩ : Scene ℝ) ⟨⟨0, 0, 3⟩, ⟨0, 0, -1⟩⟩))
      = 0xFF000093 := by
    rw [unit_sphere_color]; exact red_pixel
  have hbg : ConvertToRGBA (clamp01 (TraceRay Real.sqrt
      (⟨[⟨⟨0, 0, 0⟩, 1, 0⟩], [⟨⟨1, 0, 0⟩⟩]⟩ : Scene ℝ) ⟨⟨0, 0, 3⟩, ⟨5, 5, -1⟩⟩))
      = 0xFF000000 := by
    rw [unit_sphere_miss_color]; exact background_pixel
  refine ⟨unit_sphere_closestHit, ?_, unit_sphere_color, hred, by decide, unit_sphere_miss,
    hbg, ?_⟩
  · simp only [normalize, dot, Vec3.sub, Vec3.add, Vec3.scale]
    norm_num
  · simp [Renderer.Render, Renderer.OnResize, Renderer.init, Renderer.reallocate,
      PixelBuffer.alloc, renderRows, renderRow, renderPixel, PixelBuffer.write,
      Image.GetWidth, Image.GetHeight, pixelColor]
    exact ⟨hred, hbg⟩

/-- C11: whenever the loop of `TraceRay` selects the sphere `s` (index `k`) with hit
distance `t`, `TraceRay` returns `(Albedo.r * I, Albedo.g * I, Albedo.b * I, 1)` where
`Albedo` is the albedo of `scene.Materials[s.MaterialIndex]`,
`I = max (dot n ((1, 1, 1) / sqrt 3)) 0` and
`n = normalize ((rayOrigin - s.Position) + direction * t)`; the colour has no other term
and its alpha is exactly 1. -/
theorem TraceRay_shading (scene : Scene ℝ) (ray : Ray ℝ) (k : Nat) (s : Sphere ℝ) (t : ℝ)
    (m : Material ℝ) (hsel : closestHit Real.sqrt scene ray = ⟨(k : Int), t⟩)
    (hk : scene.Spheres[k]? = some s) (hm : scene.Materials[s.MaterialIndex]? = some m) :
    TraceRay Real.sqrt scene ray
        = ⟨m.Albedo.x * max (dot (normalize Real.sqrt
              ((ray.Origin.sub s.Position).add (ray.Direction.scale t)))
              ⟨1 / Real.sqrt 3, 1 / Real.sqrt 3, 1 / Real.sqrt 3⟩) 0,
            m.Albedo.y * max (dot (normalize Real.sqrt
              ((ray.Origin.sub s.Position).add (ray.Direction.scale t)))
              ⟨1 / Real.sqrt 3, 1 / Real.sqrt 3, 1 / Real.sqrt 3⟩) 0,
            m.Albedo.z * max (dot (normalize Real.sqrt
              ((ray.Origin.sub s.Position).add (ray.Direction.scale t)))
              ⟨1 / Real.sqrt 3, 1 / Real.sqrt 3, 1 / Real.sqrt 3⟩) 0,
            1⟩
      ∧ (TraceRay Real.sqrt scene ray).a = 1
      ∧ t = closestT Real.sqrt ray.Origin ray.Direction s := by
  obtain ⟨ht, _, _, _, htrace⟩ := closestHit_selected scene ray k s t hsel hk
  have hcol : TraceRay Real.sqrt scene ray
      = ⟨m.Albedo.x * max (dot (normalize Real.sqrt
            ((ray.Origin.sub s.Position).add (ray.Direction.scale t)))
            ⟨1 / Real.sqrt 3, 1 / Real.sqrt 3, 1 / Real.sqrt 3⟩) 0,
          m.Albedo.y * max (dot (normalize Real.sqrt
            ((ray.Origin.sub s.Position).add (ray.Direction.scale t)))
            ⟨1 / Real.sqrt 3, 1 / Real.sqrt 3, 1 / Real.sqrt 3⟩) 0,
          m.Albedo.z * max (dot (normalize Real.sqrt
            ((ray.Origin.sub s.Position).add (ray.Direction.scale t)))
            ⟨1 / Real.sqrt 3, 1 / Real.sqrt 3, 1 / Real.sqrt 3⟩) 0,
          1⟩ := by
    rw [htrace]
    unfold shadeHit
    simp only [neg_lightDir, List.getD_eq_getElem?_getD, hm, Option.getD_some, Vec3.scale]
  refine ⟨hcol, ?_, ht⟩
  rw [hcol]

/-- Witness for C11: the unit sphere at the origin with albedo `(1, 0, 0)`, hit from
`(0, 0, 3)` along `(0, 0, -1)` at distance 2. -/
theorem TraceRay_shading_witness :
    (TraceRay Real.sqrt (⟨[⟨⟨0, 0, 0⟩, 1, 0⟩], [⟨⟨1, 0, 0⟩⟩]⟩ : Scene ℝ)
      ⟨⟨0, 0, 3⟩, ⟨0, 0, -1⟩⟩).a = 1 :=
  (TraceRay_shading (⟨[⟨⟨0, 0, 0⟩, 1, 0⟩], [⟨⟨1, 0, 0⟩⟩]⟩ : Scene ℝ)
    ⟨⟨0, 0, 3⟩, ⟨0, 0, -1⟩⟩ 0 ⟨⟨0, 0, 0⟩, 1, 0⟩ 2 ⟨⟨1, 0, 0⟩⟩
    unit_sphere_closestHit rfl rfl).2.1

/-- C12: for every scene and every ray origin, a ray of direction `(0, 0, 0)` makes the
divisor `2 * a` zero (and the dividend `-b - sqrt discriminant` zero as well), no sphere is
accepted, the loop ends in its initial state with `closestSphere = -1`, and `TraceRay`
returns the background `(0, 0, 0, 1)` without reaching the material lookup. -/
theorem TraceRay_zero_direction (scene : Scene ℝ) (rayOrigin : Vec3 ℝ) :
    (2 * dot (⟨0, 0, 0⟩ : Vec3 ℝ) ⟨0, 0, 0⟩ = 0)
      ∧ (∀ s : Sphere ℝ,
          -(2 * dot (rayOrigin.sub s.Position) ⟨0, 0, 0⟩)
              - Real.sqrt (discriminant rayOrigin ⟨0, 0, 0⟩ s) = 0
            ∧ ¬ (0 < closestT Real.sqrt rayOrigin ⟨0, 0, 0⟩ s)
            ∧ ∀ (i : Nat) (st : HitState ℝ),
                sphereStep Real.sqrt rayOrigin ⟨0, 0, 0⟩ i s st = st)
      ∧ closestHit Real.sqrt scene ⟨rayOrigin, ⟨0, 0, 0⟩⟩ = ⟨-1, FLT_MAX⟩
      ∧ TraceRay Real.sqrt scene ⟨rayOrigin, ⟨0, 0, 0⟩⟩ = ⟨0, 0, 0, 1⟩ := by
  have hD : ∀ s : Sphere ℝ, discriminant rayOrigin ⟨0, 0, 0⟩ s = 0 := by
    intro s
    simp only [discriminant, dot]
    ring
  have hT : ∀ s : Sphere ℝ, closestT Real.sqrt rayOrigin ⟨0, 0, 0⟩ s = 0 := by
    intro s
    simp only [closestT, dot]
    norm_num
  have hnot : ∀ s : Sphere ℝ, ¬ (0 < closestT Real.sqrt rayOrigin ⟨0, 0, 0⟩ s) := by
    intro s
    rw [hT s]
    exact lt_irrefl 0
  have hnone := TraceRay_of_no_candidate scene ⟨rayOrigin, ⟨0, 0, 0⟩⟩
    (fun s _ hc => hnot s hc.2.1)
  refine ⟨by simp only [dot]; norm_num, ?_, hnone.1, hnone.2⟩
  intro s
  refine ⟨?_, hnot s, ?_⟩
  · rw [hD s, Real.sqrt_zero]
    simp only [dot]
    norm_num
  · intro i st
    exact sphereStep_reject rayOrigin ⟨0, 0, 0⟩ i s st (fun hc => hnot s hc.2.1)

/-- C13: when the buffer and the camera's direction list both have `Width * Height`
entries and every sphere's `MaterialIndex` is a valid index into `scene.Materials`, every
pixel `(x, y)` with `x < Width`, `y < Height` has its index `x + y * Width` below
`Width * Height` (and the `uint32_t` sum does not wrap), and `Render` with every read of
the directions, every write to the buffer and every lookup of `TraceRay` checked returns
the result of `Render`: no access is out of range. -/
theorem Render_in_bounds (self : Renderer) (scene : Scene ℝ) (camera : Camera ℝ)
    (img : Image) (himg : self.m_FinalImage = some img)
    (hbuf : self.m_ImageData.data.length = img.Width * img.Height)
    (hdirs : camera.RayDirections.length = img.Width * img.Height)
    (hmat : ∀ s ∈ scene.Spheres, s.MaterialIndex < scene.Materials.length) :
    (∀ x y, x < img.Width → y < img.Height →
        x + y * img.Width < img.Width * img.Height
          ∧ (x + y * img.Width) % 2 ^ 32 = x + y * img.Width
          ∧ (∃ d, camera.RayDirections[(x + y * img.Width) % 2 ^ 32]? = some d)
          ∧ (x + y * img.Width) % 2 ^ 32 < self.m_ImageData.data.length)
      ∧ (∀ ray : Ray ℝ,
          TraceRayChecked Real.sqrt scene ray = some (TraceRay Real.sqrt scene ray))
      ∧ self.RenderChecked Real.sqrt scene camera
          = some (self.Render Real.sqrt scene camera) := by
  refine ⟨?_, fun ray => TraceRayChecked_eq scene ray hmat, ?_⟩
  · intro x y hx hy
    have hlt := pixel_index_lt img.Width img.Height x y hx hy
    have hsz := self.m_ImageData.size_lt
    have hidx : (x + y * img.Width) % 2 ^ 32 = x + y * img.Width :=
      Nat.mod_eq_of_lt (by omega)
    refine ⟨hlt, hidx, ?_, by rw [hidx, hbuf]; exact hlt⟩
    rw [hidx]
    exact ⟨_, List.getElem?_eq_getElem (by rw [hdirs]; exact hlt)⟩
  · unfold Renderer.RenderChecked Renderer.Render
    rw [himg]
    simp only [Image.GetWidth, Image.GetHeight]
    rw [renderRowsChecked_eq scene camera img.Width img.Height 0 self.m_ImageData hmat
      (by rw [hbuf, Nat.zero_add, Nat.mul_comm]) (by rw [hbuf, hdirs])]

/-- Witness for C13: a 2 x 1 image rendered over the one-sphere scene. -/
theorem Render_in_bounds_witness :
    Renderer.RenderChecked Real.sqrt (Renderer.init.OnResize 2 1)
        (⟨[⟨⟨0, 0, 0⟩, 1, 0⟩], [⟨⟨1, 0, 0⟩⟩]⟩ : Scene ℝ)
        (⟨⟨0, 0, 3⟩, [⟨0, 0, -1⟩, ⟨5, 5, -1⟩]⟩ : Camera ℝ)
      = some (Renderer.Render Real.sqrt (Renderer.init.OnResize 2 1)
        (⟨[⟨⟨0, 0, 0⟩, 1, 0⟩], [⟨⟨1, 0, 0⟩⟩]⟩ : Scene ℝ)
        (⟨⟨0, 0, 3⟩, [⟨0, 0, -1⟩, ⟨5, 5, -1⟩]⟩ : Camera ℝ)) :=
  (Render_in_bounds (Renderer.init.OnResize 2 1)
    (⟨[⟨⟨0, 0, 0⟩, 1, 0⟩], [⟨⟨1, 0, 0⟩⟩]⟩ : Scene ℝ)
    (⟨⟨0, 0, 3⟩, [⟨0, 0, -1⟩, ⟨5, 5, -1⟩]⟩ : Camera ℝ) ⟨2, 1, []⟩ rfl rfl rfl
    (by
      intro s hs
      rw [List.mem_singleton] at hs
      subst hs
      exact Nat.zero_lt_one)).2.2

/-- C17: for every scene and camera, the colour of `TraceRay` has alpha 1 for every ray,
the pixel computed for every index has its highest byte equal to `0xFF` (it is at least
`0xFF000000`), every entry of the buffer after `Render` is either the entry it held before
or such an opaque pixel, and when the buffer has `Width * Height` entries all of them are
opaque after `Render`. -/
theorem rendered_pixels_alpha_byte (self : Renderer) (scene : Scene ℝ) (camera : Camera ℝ) :
    (∀ ray : Ray ℝ, (TraceRay Real.sqrt scene ray).a = 1)
      ∧ (∀ index : Nat, pixelColor Real.sqrt scene camera index / 16777216 = 0xFF
          ∧ 0xFF000000 ≤ pixelColor Real.sqrt scene camera index)
      ∧ (∀ (i v : Nat), (self.Render Real.sqrt scene camera).m_ImageData.data[i]? = some v →
          self.m_ImageData.data[i]? = some v ∨ (v / 16777216 = 0xFF ∧ 0xFF000000 ≤ v))
      ∧ (∀ img : Image, self.m_FinalImage = some img →
          self.m_ImageData.data.length = img.Width * img.Height →
          ∀ i, i < img.Width * img.Height →
            ∃ v, (self.Render Real.sqrt scene camera).m_ImageData.data[i]? = some v
              ∧ v / 16777216 = 0xFF ∧ 0xFF000000 ≤ v) := by
  have hop : ∀ index : Nat, pixelColor Real.sqrt scene camera index / 16777216 = 0xFF
      ∧ 0xFF000000 ≤ pixelColor Real.sqrt scene camera index :=
    fun index => ⟨(pixelColor_alpha_byte scene camera index).1,
      (pixelColor_alpha_byte scene camera index).2.1⟩
  refine ⟨fun ray => TraceRay_alpha scene ray, hop, ?_, ?_⟩
  · intro i v hv
    cases himg : self.m_FinalImage with
    | none =>
      left
      have hsame : self.Render Real.sqrt scene camera = self := by
        unfold Renderer.Render; rw [himg]
      rw [hsame] at hv
      exact hv
    | some img =>
      rw [Render_of_image scene camera self img himg] at hv
      rcases renderRows_getElem?_cases scene camera img.Width img.Height 0
        self.m_ImageData i with h | ⟨index, h⟩
      · left
        rw [← h]
        exact hv
      · right
        have hv2 : (renderRows Real.sqrt scene camera img.Width img.Height 0
            self.m_ImageData).data[i]? = some v := hv
        rw [h] at hv2
        have e : pixelColor Real.sqrt scene camera index = v := Option.some.inj hv2
        rw [← e]
        exact hop index
  · intro img himg hbuf i hi
    refine ⟨pixelColor Real.sqrt scene camera i, ?_, hop i⟩
    rw [Render_of_image scene camera self img himg]
    show (renderRows Real.sqrt scene camera img.Width img.Height 0
      self.m_ImageData).data[i]? = _
    rw [renderRows_getElem? scene camera img.Width img.Height 0 self.m_ImageData
      (by rw [hbuf, Nat.zero_add, Nat.mul_comm]) i,
      if_pos ⟨by omega, by rw [Nat.zero_add, Nat.mul_comm]; exact hi⟩]

end RayTracing
